import Mathlib

/-!
Verification of the pyright-lsp-proxy design against its Rust sources.

The development shallowly embeds the relevant parts of the repository:

* `src/text_edit.rs` — incremental LSP text edits (UTF-16 position math);
* `src/message.rs` — the permissive JSON-RPC envelope;
* `src/framing.rs` — the Content-Length framing codec;
* `src/proxy.rs` — the `textDocument/didChange` handler of the dispatcher;
* `src/proxy/backend_dispatch.rs` and `src/proxy/pool_management.rs` —
  the pooled dispatcher: stale-session filtering, crash/eviction handling,
  pending-request cancellation.

Texts are embedded as `List Char` with explicit UTF-8 byte arithmetic;
JSON values are a standard inductive with numbers restricted to integers
(the proxy only ever produces and consumes integral JSON numbers; floating
point payloads are out of scope).  Structures whose defining module is not
part of the source snapshot (the pooled `ProxyState`, the backend pool
instance, session allocation, diagnostics clearing) are modelled from the
design document; each such definition carries a doc comment starting with
`Modelled from the spec:`.
-/

/-! ## Errors (`src/error.rs` is absent from the snapshot) -/

/-- Modelled from the spec: `error.rs` is not part of the source snapshot.
Only the `InvalidMessage` variant is exercised by the text-edit engine
(`src/text_edit.rs` constructs it on every failure path).  The extra
`replaceRangeViolation` constructor is a proof device making the panic
condition of Rust's `String::replace_range` explicit in the model. -/
inductive ProxyError where
  | invalidMessage (msg : String)
  | replaceRangeViolation
deriving DecidableEq

/-- Is an `Except` value an error? -/
def exceptIsError {ε α : Type _} : Except ε α → Bool
  | .error _ => true
  | .ok _ => false

deriving instance DecidableEq for Except

/-! ## JSON values (model of `serde_json::Value`, integers only) -/

/-- Model of `serde_json::Value`.  Numbers are restricted to integers:
the proxy never constructs or inspects non-integral numbers.  Objects are
association lists in insertion order. -/
inductive Json where
  | null
  | bool (b : Bool)
  | num (n : Int)
  | str (s : String)
  | arr (elems : List Json)
  | obj (fields : List (String × Json))

/-- First-match lookup in a JSON object field list. -/
def jsonLookupList : List (String × Json) → String → Option Json
  | [], _ => none
  | kv :: rest, key => if kv.1 = key then some kv.2 else jsonLookupList rest key

/-- Model of `serde_json::Value::get` on an object (returns `None` on
non-objects). -/
def jsonGet (j : Json) (key : String) : Option Json :=
  match j with
  | .obj fields => jsonLookupList fields key
  | _ => none

/-- Model of `serde_json::Value::as_u64`. -/
def asU64 : Json → Option Nat
  | .num n => if 0 ≤ n ∧ n < (2 : Int) ^ 64 then some n.toNat else none
  | _ => none

/-- Model of `serde_json::Value::as_i64`. -/
def asI64 : Json → Option Int
  | .num n => if -(2 : Int) ^ 63 ≤ n ∧ n < (2 : Int) ^ 63 then some n else none
  | _ => none

/-- Model of `serde_json::Value::as_str`. -/
def asStr : Json → Option String
  | .str s => some s
  | _ => none

/-- Model of `serde_json::Value::as_array`. -/
def asArr : Json → Option (List Json)
  | .arr es => some es
  | _ => none

/-! ## Characters and byte/UTF-16 lengths -/

/-- Rust `char::len_utf8` on a Unicode scalar value. -/
def charUtf8Size (c : Char) : Nat :=
  if c.toNat < 128 then 1 else if c.toNat < 2048 then 2
  else if c.toNat < 65536 then 3 else 4

/-- Rust `char::len_utf16` on a Unicode scalar value. -/
def charUtf16Size (c : Char) : Nat :=
  if c.toNat < 65536 then 1 else 2

/-- UTF-8 byte length of a character sequence (Rust `str::len`). -/
def utf8Len (cs : List Char) : Nat := (cs.map charUtf8Size).sum

/-- UTF-16 code-unit length of a character sequence. -/
def utf16Len (cs : List Char) : Nat := (cs.map charUtf16Size).sum

/-- The newline character test used throughout `text_edit.rs`. -/
def isNl (c : Char) : Bool := c.toNat == 10

/-! ## `src/text_edit.rs` -/

/-- `find_offset_in_line` (text_edit.rs:85-102): walk the characters of one
line; `pos` is the byte offset of the current character, `u` the UTF-16
length of the preceding characters of the line.  Returns the byte offset of
the first character whose preceding UTF-16 length reaches `character`, or
`lineEnd` when the line is exhausted (clamping). -/
def findOffsetInLine : List Char → Nat → Nat → Nat → Nat → Nat
  | [], _, lineEnd, _, _ => lineEnd
  | c :: rest, pos, lineEnd, character, u =>
    if character ≤ u then pos
    else findOffsetInLine rest (pos + charUtf8Size c) lineEnd character (u + charUtf16Size c)

/-- The error text of the out-of-range case of `position_to_offset`. -/
def posOutOfRangeMsg (line maxLine character : Nat) : String :=
  "Position out of range: line=" ++ toString line ++ " (max=" ++ toString maxLine
    ++ "), character=" ++ toString character

/-- The loop of `position_to_offset` (text_edit.rs:61-81).  `pos` is the
byte offset of the current character, `currentLine` the number of newlines
consumed, `lineStart` the byte offset at which the current line starts and
`acc` the characters of the current line so far (the Rust code re-slices
the original text with byte offsets; carrying the slice explicitly is
equivalent because the offsets are always character boundaries). -/
def positionToOffsetGo (line character : Nat) :
    List Char → Nat → Nat → Nat → List Char → Except ProxyError Nat
  | [], pos, currentLine, lineStart, acc =>
    if currentLine = line then .ok (findOffsetInLine acc lineStart pos character 0)
    else .error (.invalidMessage (posOutOfRangeMsg line currentLine character))
  | c :: rest, pos, currentLine, lineStart, acc =>
    if isNl c then
      (if currentLine = line then .ok (findOffsetInLine acc lineStart pos character 0)
       else positionToOffsetGo line character rest (pos + 1) (currentLine + 1) (pos + 1) [])
    else positionToOffsetGo line character rest (pos + charUtf8Size c) currentLine lineStart
      (acc ++ [c])

/-- `position_to_offset` (text_edit.rs:56-82): convert an LSP
`(line, character)` position (UTF-16 columns) to a UTF-8 byte offset. -/
def positionToOffset (text : List Char) (line character : Nat) : Except ProxyError Nat :=
  positionToOffsetGo line character text 0 0 0 []

/-- Split a character list at a UTF-8 byte offset.  `none` exactly when the
offset is out of bounds or not a character boundary — the two conditions
under which Rust's `String::replace_range` panics on an endpoint. -/
def splitAtByte : List Char → Nat → Option (List Char × List Char)
  | cs, 0 => some ([], cs)
  | [], _ + 1 => none
  | c :: rest, n + 1 =>
    if charUtf8Size c ≤ n + 1 then
      (splitAtByte rest (n + 1 - charUtf8Size c)).map (fun p => (c :: p.1, p.2))
    else none

/-- Model of `String::replace_range (start..end)`: `none` models a panic
(offset out of bounds, not a character boundary, or `start > end`). -/
def replaceRangeChecked (text : List Char) (startOffset endOffset : Nat)
    (newText : List Char) : Option (List Char) :=
  if startOffset ≤ endOffset then
    match splitAtByte text startOffset, splitAtByte text endOffset with
    | some p1, some p2 => some (p1.1 ++ newText ++ p2.2)
    | _, _ => none
  else none

/-- The error text of the inverted-range case of `apply_incremental_change`. -/
def invalidRangeMsg (startOffset endOffset : Nat) : String :=
  "Invalid range: start offset (" ++ toString startOffset ++ ") > end offset ("
    ++ toString endOffset ++ ")"

/-- `apply_incremental_change` (text_edit.rs:4-52) in mutable-reference
form: the pair returned is (function result, final text).  Every early
`return Err` leaves the text untouched, mirroring the Rust control flow in
which `replace_range` is the last statement. -/
def applyIncrementalChangeMut (text : List Char) (range : Json) (newText : List Char) :
    Except ProxyError Unit × List Char :=
  match jsonGet range ("start") with
  | none => (.error (.invalidMessage ("didChange range missing start")), text)
  | some startPos =>
  match jsonGet range ("end") with
  | none => (.error (.invalidMessage ("didChange range missing end")), text)
  | some endPos =>
  match (jsonGet startPos ("line")).bind asU64 with
  | none => (.error (.invalidMessage ("didChange start missing line")), text)
  | some startLine =>
  match (jsonGet startPos ("character")).bind asU64 with
  | none => (.error (.invalidMessage ("didChange start missing character")), text)
  | some startChar =>
  match (jsonGet endPos ("line")).bind asU64 with
  | none => (.error (.invalidMessage ("didChange end missing line")), text)
  | some endLine =>
  match (jsonGet endPos ("character")).bind asU64 with
  | none => (.error (.invalidMessage ("didChange end missing character")), text)
  | some endChar =>
  match positionToOffset text startLine startChar with
  | .error e => (.error e, text)
  | .ok startOffset =>
  match positionToOffset text endLine endChar with
  | .error e => (.error e, text)
  | .ok endOffset =>
  if endOffset < startOffset then
    (.error (.invalidMessage (invalidRangeMsg startOffset endOffset)), text)
  else
    match replaceRangeChecked text startOffset endOffset newText with
    | some newFull => (.ok (), newFull)
    | none => (.error .replaceRangeViolation, text)

/-- `apply_incremental_change` as a value-returning function. -/
def applyIncrementalChange (text : List Char) (range : Json) (newText : List Char) :
    Except ProxyError (List Char) :=
  match applyIncrementalChangeMut text range newText with
  | (.ok _, newFull) => .ok newFull
  | (.error e, _) => .error e

/-! ## Line bookkeeping used to state the text-edit claims -/

/-- Number of newline characters of a text; `position_to_offset` accepts
exactly the lines `0 .. countNl text` (line `countNl text` being the
segment after the final newline, empty iff the text ends with a newline). -/
def countNl : List Char → Nat
  | [] => 0
  | c :: rest => (if isNl c then 1 else 0) + countNl rest

/-- Does a text end with a newline? -/
def endsWithNl : List Char → Bool
  | [] => false
  | [c] => isNl c
  | _ :: rest => endsWithNl rest

/-- The characters of line `n` of a text (up to, not including, its
terminating newline; the trailing segment for `n = countNl text`). -/
def lineChars : List Char → Nat → List Char
  | [], _ => []
  | c :: rest, n =>
    if isNl c then
      (match n with
       | 0 => []
       | m + 1 => lineChars rest m)
    else
      (match n with
       | 0 => c :: lineChars rest 0
       | _ + 1 => lineChars rest n)

/-- The byte offset at which line `n` of a text starts. -/
def lineStartByte : List Char → Nat → Nat
  | [], _ => 0
  | _ :: _, 0 => 0
  | c :: rest, n + 1 =>
    if isNl c then 1 + lineStartByte rest n
    else charUtf8Size c + lineStartByte rest (n + 1)

/-! ## `src/message.rs`: the JSON-RPC envelope -/

/-- `RpcId` (message.rs:20-25): an id is an integer or a string. -/
inductive RpcId where
  | num (n : Int)
  | str (s : String)
deriving DecidableEq

/-- `RpcError` (message.rs:27-33). -/
structure RpcError where
  code : Int
  message : String
  data : Option Json

/-- `RpcMessage` (message.rs:5-18): the permissive JSON-RPC envelope;
every `Option` field is omitted from the serialization when `none`. -/
structure RpcMessage where
  jsonrpc : String
  id : Option RpcId
  method : Option String
  params : Option Json
  result : Option Json
  error : Option RpcError

/-- `is_request` (message.rs:37-39). -/
def RpcMessage.isRequest (m : RpcMessage) : Bool := m.id.isSome && m.method.isSome

/-- `is_notification` (message.rs:42-44). -/
def RpcMessage.isNotification (m : RpcMessage) : Bool := m.id.isNone && m.method.isSome

/-- `is_response` (message.rs:47-49). -/
def RpcMessage.isResponse (m : RpcMessage) : Bool := m.id.isSome && m.method.isNone

/-- `method_name` (message.rs:52-54). -/
def RpcMessage.methodName (m : RpcMessage) : Option String := m.method

/-! ## Pooled proxy state

The pooled generation of the dispatcher lives in
`src/proxy/backend_dispatch.rs` and `src/proxy/pool_management.rs`; its
supporting modules (`backend_pool.rs`, the pooled `state.rs`,
`proxy/mod.rs`) are not part of the source snapshot, so the state shapes
below follow the design document (§3 Data Model) and the field accesses
visible in the two dispatcher files.  Virtual-environment paths and
document URIs are modelled as opaque strings. -/

/-- Modelled from the spec: the pool entry of `backend_pool.rs` (absent
from src/).  Only the fields the dispatcher files use are modelled:
`session` (monotonic, unique per spawn), the `Warming`/`Ready` status and
the warmup queue returned by `mark_ready`. -/
structure BackendInstance where
  session : Nat
  warming : Bool
  warmupQueue : List RpcMessage

/-- `PendingClientRequest` (spec §3; keyed by the original client request
id, fields read by `pool_management.rs` as `venv_path`/`backend_session`). -/
structure PendingRequest where
  venvPath : String
  backendSession : Nat

/-- `PendingBackendRequest` (backend_dispatch.rs:68-72). -/
structure PendingBackendRequest where
  originalId : RpcId
  venvPath : String
  session : Nat

/-- Modelled from the spec: the open-document record of the pooled
generation (spec §3 `OpenDocument`, with its optional environment). -/
structure PooledDocument where
  languageId : String
  version : Int
  text : String
  venv : Option String

/-- Modelled from the spec: the pooled `ProxyState` (the pooled `state.rs`
is absent from src/).  `nextProxyId` models `alloc_proxy_request_id` and
`nextSession` the monotonic session allocator of the pool. -/
structure PoolState where
  pool : List (String × BackendInstance)
  pendingRequests : List (RpcId × PendingRequest)
  pendingBackendRequests : List (RpcId × PendingBackendRequest)
  openDocuments : List (String × PooledDocument)
  nextProxyId : Nat
  nextSession : Nat

/-- First-match lookup in a string-keyed association list (models
`HashMap::get`). -/
def assocLookup {α : Type _} : List (String × α) → String → Option α
  | [], _ => none
  | e :: rest, k => if e.1 == k then some e.2 else assocLookup rest k

/-- `pool.get(&venv_path)`. -/
def poolLookup (pool : List (String × BackendInstance)) (venvPath : String) :
    Option BackendInstance :=
  assocLookup pool venvPath

/-- `pool.remove(&venv_path)` — under the unique-key invariant of a
`HashMap`, removing the key equals filtering it out. -/
def poolRemove (pool : List (String × BackendInstance)) (venvPath : String) :
    List (String × BackendInstance) :=
  pool.filter (fun e => !(e.1 == venvPath))

/-- First-match lookup in an id-keyed association list. -/
def reqLookup {α : Type _} : List (RpcId × α) → RpcId → Option α
  | [], _ => none
  | e :: rest, k => if e.1 == k then some e.2 else reqLookup rest k

/-- `pending_requests.remove(&id)` under the unique-key invariant. -/
def reqRemove {α : Type _} (t : List (RpcId × α)) (id : RpcId) : List (RpcId × α) :=
  t.filter (fun e => !(e.1 == id))

/-- The synthetic cancellation response of
`cancel_pending_requests_for_backend` (pool_management.rs:238-249). -/
def cancelResponse (id : RpcId) : RpcMessage :=
  { jsonrpc := "2.0", id := some id, method := none, params := none, result := none,
    error := some { code := -32800,
                    message := "Request cancelled due to backend eviction", data := none } }

/-- `cancel_pending_requests_for_backend` (pool_management.rs:220-255):
collect the ids of pending entries tied to `(venvPath, session)`, remove
each and emit a synthetic cancellation response for each. -/
def cancelPendingRequestsForBackend (pending : List (RpcId × PendingRequest))
    (venvPath : String) (session : Nat) :
    List (RpcId × PendingRequest) × List RpcMessage :=
  let toCancel := (pending.filter
    (fun e => e.2.venvPath == venvPath && e.2.backendSession == session)).map (fun e => e.1)
  (toCancel.foldl reqRemove pending, toCancel.map cancelResponse)

/-- `clean_pending_backend_requests` (pool_management.rs:258-262). -/
def cleanPendingBackendRequests (t : List (RpcId × PendingBackendRequest))
    (venvPath : String) (session : Nat) : List (RpcId × PendingBackendRequest) :=
  t.filter (fun e => !(e.2.venvPath == venvPath && e.2.session == session))

/-- Modelled from the spec: the cleared-diagnostics notification of
`clear_diagnostics_for_venv` (defined outside the snapshot; spec §4.5
eviction step 4: `textDocument/publishDiagnostics` with an empty array). -/
def publishDiagnosticsClear (uri : String) : RpcMessage :=
  { jsonrpc := "2.0", id := none, method := some ("textDocument/publishDiagnostics"),
    params := some (Json.obj [(("uri"), Json.str uri), (("diagnostics"), Json.arr [])]),
    result := none, error := none }

/-- Modelled from the spec: `clear_diagnostics_for_venv` — one cleared
diagnostics notification per cached document whose environment equals the
given one. -/
def clearDiagnosticsForVenv (docs : List (String × PooledDocument)) (venvPath : String) :
    List RpcMessage :=
  (docs.filter (fun e => e.2.venv == some venvPath)).map (fun e => publishDiagnosticsClear e.1)

/-- The observable effects of tearing a backend down. -/
structure TeardownOut where
  state : PoolState
  writes : List RpcMessage
  readerAborted : Bool
  shutdownAttempted : Bool

/-- `handle_backend_crash` (pool_management.rs:169-217): verify the
session still matches, remove the pool entry, cancel its pending
client→backend requests, drop its pending backend→client requests, abort
the reader task; no graceful shutdown and no diagnostics clearing. -/
def handleBackendCrash (st : PoolState) (venvPath : String) (session : Nat) : TeardownOut :=
  let shouldRemove := match poolLookup st.pool venvPath with
    | some inst => inst.session == session
    | none => false
  if shouldRemove then
    let cancel := cancelPendingRequestsForBackend st.pendingRequests venvPath session
    { state := { st with
        pool := poolRemove st.pool venvPath
        pendingRequests := cancel.1
        pendingBackendRequests := cleanPendingBackendRequests st.pendingBackendRequests
          venvPath session }
      writes := cancel.2
      readerAborted := true
      shutdownAttempted := false }
  else
    { state := st, writes := [], readerAborted := false, shutdownAttempted := false }

/-- The removal body of `evict_lru_backend` (pool_management.rs:62-90) for
a given environment: remove, cancel pendings, drop backend→client
pendings, clear diagnostics, shut the instance down (which per spec §4.5
aborts the reader and attempts graceful shutdown). -/
def evictBackendVenv (st : PoolState) (venvPath : String) : TeardownOut :=
  match poolLookup st.pool venvPath with
  | none => { state := st, writes := [], readerAborted := false, shutdownAttempted := false }
  | some inst =>
    let cancel := cancelPendingRequestsForBackend st.pendingRequests venvPath inst.session
    { state := { st with
        pool := poolRemove st.pool venvPath
        pendingRequests := cancel.1
        pendingBackendRequests := cleanPendingBackendRequests st.pendingBackendRequests
          venvPath inst.session }
      writes := cancel.2 ++ clearDiagnosticsForVenv st.openDocuments venvPath
      readerAborted := true
      shutdownAttempted := true }

/-- `is_progress_end` (backend_dispatch.rs:156-163):
`params.value.kind == "end"`. -/
def isProgressEnd (m : RpcMessage) : Bool :=
  match m.params with
  | some p =>
    match (jsonGet p ("value")).bind (fun v => jsonGet v ("kind")) with
    | some (.str s) => s == "end"
    | _ => false
  | none => false

/-- Modelled from the spec: `mark_ready` of the pool instance — transition
`Warming → Ready` and surrender the queued messages. -/
def markReadyInst (inst : BackendInstance) : BackendInstance :=
  { inst with warming := false, warmupQueue := [] }

/-- Apply `mark_ready` to the pool entry at `venvPath`. -/
def poolMarkReady (pool : List (String × BackendInstance)) (venvPath : String) :
    List (String × BackendInstance) :=
  pool.map (fun e => if e.1 == venvPath then (e.1, markReadyInst e.2) else e)

/-- The outputs of one `dispatch_backend_message` call: the new state, the
messages written to the client, and the queued messages drained to the
backend (modelled from the spec: `drain_warmup_queue` writes each queued
message in order to the backend). -/
structure DispatchOut where
  state : PoolState
  clientWrites : List RpcMessage
  backendWrites : List (String × RpcMessage)

/-- Is the tagged `(venvPath, session)` the pool's current occupant?
(backend_dispatch.rs:25-29). -/
def isCurrentAt (st : PoolState) (venvPath : String) (session : Nat) : Bool :=
  match poolLookup st.pool venvPath with
  | some inst => inst.session == session
  | none => false

/-- The tail of the `Ok` path of `dispatch_backend_message`
(backend_dispatch.rs:110-137): `$/progress`-end handling (mark ready and
drain the warmup queue) followed by the forward to the client. -/
def forwardTail (st : PoolState) (venvPath : String) (m : RpcMessage) : DispatchOut :=
  if m.isNotification && (m.methodName == some ("$/progress")) && isProgressEnd m then
    match poolLookup st.pool venvPath with
    | some inst =>
      if inst.warming then
        { state := { st with pool := poolMarkReady st.pool venvPath }
          clientWrites := [m]
          backendWrites := inst.warmupQueue.map (fun q => (venvPath, q)) }
      else { state := st, clientWrites := [m], backendWrites := [] }
    | none => { state := st, clientWrites := [m], backendWrites := [] }
  else { state := st, clientWrites := [m], backendWrites := [] }

/-- `dispatch_backend_message` (backend_dispatch.rs:12-152): stale-session
filter, then per-kind handling of the record. -/
def dispatchBackendMessage (st : PoolState) (venvPath : String) (session : Nat)
    (result : Except Unit RpcMessage) : DispatchOut :=
  if !(isCurrentAt st venvPath session) then
    { state := st, clientWrites := [], backendWrites := [] }
  else
    match result with
    | .error _ =>
      let crash := handleBackendCrash st venvPath session
      { state := crash.state, clientWrites := crash.writes, backendWrites := [] }
    | .ok m =>
      if m.isRequest then
        match m.id with
        | some originalId =>
          let proxyId := RpcId.num (st.nextProxyId : Int)
          let st2 := { st with
            nextProxyId := st.nextProxyId + 1
            pendingBackendRequests :=
              (proxyId, { originalId := originalId, venvPath := venvPath, session := session })
                :: st.pendingBackendRequests }
          { state := st2, clientWrites := [{ m with id := some proxyId }], backendWrites := [] }
        | none => { state := st, clientWrites := [m], backendWrites := [] }
      else if m.isResponse then
        match m.id with
        | some i =>
          match reqLookup st.pendingRequests i with
          | some p =>
            if p.backendSession != session || p.venvPath != venvPath then
              { state := { st with pendingRequests := reqRemove st.pendingRequests i }
                clientWrites := []
                backendWrites := [] }
            else
              forwardTail { st with pendingRequests := reqRemove st.pendingRequests i } venvPath m
          | none =>
            forwardTail { st with pendingRequests := reqRemove st.pendingRequests i } venvPath m
        | none => forwardTail st venvPath m
      else forwardTail st venvPath m

/-- Modelled from the spec: spawning a backend inserts a `Warming`
instance with a fresh monotonic session (spec §4.5 backend creation,
§3 `BackendInstance` invariant). -/
def spawnBackend (st : PoolState) (venvPath : String) : PoolState :=
  { st with
    pool := (venvPath, { session := st.nextSession, warming := true, warmupQueue := [] })
      :: poolRemove st.pool venvPath
    nextSession := st.nextSession + 1 }

/-- The events of the pooled event loop that touch the pool or forward
backend traffic. -/
inductive ProxyEvent where
  | spawn (venvPath : String)
  | evictVenv (venvPath : String)
  | backendRecord (venvPath : String) (session : Nat) (result : Except Unit RpcMessage)

/-- One event step; client writes are tagged with the provenance
`(venvPath, session)` of the backend-channel record that caused them
(`none` for eviction-driven writes). -/
def applyEvent (st : PoolState) :
    ProxyEvent → PoolState × List (Option (String × Nat) × RpcMessage)
  | .spawn v => (spawnBackend st v, [])
  | .evictVenv v =>
    let r := evictBackendVenv st v
    (r.state, r.writes.map (fun w => (none, w)))
  | .backendRecord v s res =>
    let r := dispatchBackendMessage st v s res
    (r.state, r.clientWrites.map (fun w => (some (v, s), w)))

/-- Run a list of events, concatenating the tagged client writes. -/
def runEvents : PoolState → List ProxyEvent → PoolState × List (Option (String × Nat) × RpcMessage)
  | st, [] => (st, [])
  | st, e :: es =>
    let r1 := applyEvent st e
    let r2 := runEvents r1.1 es
    (r2.1, r1.2 ++ r2.2)

/-- Invariant: every pooled session was allocated by the monotonic session
counter. -/
def poolSessionsBounded (st : PoolState) : Prop :=
  ∀ e ∈ st.pool, e.2.session < st.nextSession

/-- `(venvPath, session)` is dead: the session is in the allocator's past
and no pool entry at the environment carries it. -/
def sessionDead (st : PoolState) (venvPath : String) (session : Nat) : Prop :=
  session < st.nextSession ∧ ∀ e ∈ st.pool, e.1 = venvPath → e.2.session ≠ session

/-- Weak pool simulation: every entry of `p` has an entry of `q` with the
same key and session. -/
def poolWeaklySub (p q : List (String × BackendInstance)) : Prop :=
  ∀ e ∈ p, ∃ e0 ∈ q, e.1 = e0.1 ∧ e.2.session = e0.2.session

/-! ## The byte-level JSON codec (model of `serde_json`)

`src/framing.rs` serializes with `serde_json::to_vec` and parses with
`serde_json::from_slice`; both are modelled here at the byte level
(bytes are `Nat`).  The model mirrors serde_json's compact output — no
whitespace, strings escaped per its escape table (lowercase `\u00xy` for
unnamed control characters), non-ASCII characters as raw UTF-8.  The
parser accepts exactly that grammar and enforces `from_slice`'s default
recursion limit: a `remaining_depth` counter starts at 128 and is
decremented (and checked) on entering every array or object, so a
document nesting 128 or more containers fails to parse, as in serde.
Serde's tolerance of inter-token whitespace and of `\u`-escaped
surrogate pairs is not modelled; neither can occur in written bytes. -/

/-- Lowercase hexadecimal digit, as in serde_json's escape table. -/
def hexDigitByte (n : Nat) : Nat := if n < 10 then 48 + n else 87 + n

/-- UTF-8 encoding of a Unicode scalar value. -/
def utf8EncodeScalar (n : Nat) : List Nat :=
  if n < 128 then [n]
  else if n < 2048 then [192 + n / 64, 128 + n % 64]
  else if n < 65536 then [224 + n / 4096, 128 + n / 64 % 64, 128 + n % 64]
  else [240 + n / 262144, 128 + n / 4096 % 64, 128 + n / 64 % 64, 128 + n % 64]

/-- serde_json's per-character string escaping: quote and backslash get a
two-byte escape, the five named control characters their short forms,
other control characters `\u00xy`, and everything else raw UTF-8. -/
def escapeCharBytes (c : Char) : List Nat :=
  if c.toNat = 34 then [92, 34]
  else if c.toNat = 92 then [92, 92]
  else if c.toNat = 8 then [92, 98]
  else if c.toNat = 9 then [92, 116]
  else if c.toNat = 10 then [92, 110]
  else if c.toNat = 12 then [92, 102]
  else if c.toNat = 13 then [92, 114]
  else if c.toNat < 32 then
    [92, 117, 48, 48, hexDigitByte (c.toNat / 16), hexDigitByte (c.toNat % 16)]
  else utf8EncodeScalar c.toNat

/-- A rendered JSON string: quote, escaped characters, quote. -/
def renderStringBytes (s : String) : List Nat :=
  34 :: (s.data.map escapeCharBytes).flatten ++ [34]

/-- Decimal digits of a natural number (fuel-based for kernel
computability; `natDigits` supplies sufficient fuel). -/
def natDigitsAux : Nat → Nat → List Nat
  | 0, n => [48 + n % 10]
  | fuel + 1, n => if n < 10 then [48 + n] else natDigitsAux fuel (n / 10) ++ [48 + n % 10]

/-- Decimal digits of a natural number. -/
def natDigits (n : Nat) : List Nat := natDigitsAux n n

/-- serde_json's rendering of an integer. -/
def renderIntBytes (n : Int) : List Nat :=
  if n < 0 then 45 :: natDigits n.natAbs else natDigits n.toNat

mutual

/-- Compact serde_json rendering of a value. -/
def renderJson : Json → List Nat
  | .null => [110, 117, 108, 108]
  | .bool true => [116, 114, 117, 101]
  | .bool false => [102, 97, 108, 115, 101]
  | .num n => renderIntBytes n
  | .str s => renderStringBytes s
  | .arr es => 91 :: renderElems es ++ [93]
  | .obj fs => 123 :: renderMembers fs ++ [125]

/-- Comma-joined rendering of array elements. -/
def renderElems : List Json → List Nat
  | [] => []
  | [e] => renderJson e
  | e :: rest => renderJson e ++ 44 :: renderElems rest

/-- Comma-joined rendering of object members. -/
def renderMembers : List (String × Json) → List Nat
  | [] => []
  | [kv] => renderStringBytes kv.1 ++ 58 :: renderJson kv.2
  | kv :: rest => renderStringBytes kv.1 ++ 58 :: renderJson kv.2 ++ 44 :: renderMembers rest

end

mutual

/-- Fuel sufficient for `parseValue` on the rendering of a value. -/
def jsonFuel : Json → Nat
  | .null => 1
  | .bool _ => 1
  | .num _ => 1
  | .str _ => 1
  | .arr es => 1 + elemsFuel es
  | .obj fs => 1 + membersFuel fs

/-- Fuel sufficient for `parseElems` on rendered elements. -/
def elemsFuel : List Json → Nat
  | [] => 1
  | e :: rest => 1 + jsonFuel e + elemsFuel rest

/-- Fuel sufficient for `parseMembers` on rendered members. -/
def membersFuel : List (String × Json) → Nat
  | [] => 1
  | kv :: rest => 1 + jsonFuel kv.2 + membersFuel rest

end

mutual

/-- Container-nesting depth of a value: the number of arrays/objects on
the deepest path.  serde_json's reader rejects a document whose depth
reaches its recursion limit. -/
def jsonDepth : Json → Nat
  | .null => 0
  | .bool _ => 0
  | .num _ => 0
  | .str _ => 0
  | .arr es => 1 + elemsDepth es
  | .obj fs => 1 + membersDepth fs

/-- Deepest nesting among array elements. -/
def elemsDepth : List Json → Nat
  | [] => 0
  | e :: rest => max (jsonDepth e) (elemsDepth rest)

/-- Deepest nesting among object member values. -/
def membersDepth : List (String × Json) → Nat
  | [] => 0
  | kv :: rest => max (jsonDepth kv.2) (membersDepth rest)

end

/-- `n` nested singleton arrays around `null`: a document of depth `n`,
used to exercise the recursion limit. -/
def nestArr : Nat → Json
  | 0 => Json.null
  | n + 1 => Json.arr [nestArr n]

/-- Is a byte an ASCII decimal digit? -/
def isDigitByte (b : Nat) : Bool := 48 ≤ b && b ≤ 57

/-- The head byte of a stream, tested for digit-ness (used as the
"number has ended" side condition). -/
def headDigit : List Nat → Bool
  | [] => false
  | b :: _ => isDigitByte b

/-- Consume a maximal run of decimal digits, accumulating their value. -/
def parseDigitsLoop (acc : Nat) : List Nat → Nat × List Nat
  | [] => (acc, [])
  | b :: rest =>
    if isDigitByte b then parseDigitsLoop (acc * 10 + (b - 48)) rest else (acc, b :: rest)

/-- Parse a natural number (at least one digit). -/
def parseNumBytes : List Nat → Option (Nat × List Nat)
  | [] => none
  | b :: rest => if isDigitByte b then some (parseDigitsLoop 0 (b :: rest)) else none

/-- Value of a hexadecimal digit byte (either case). -/
def hexVal (b : Nat) : Option Nat :=
  if 48 ≤ b ∧ b ≤ 57 then some (b - 48)
  else if 97 ≤ b ∧ b ≤ 102 then some (b - 87)
  else if 65 ≤ b ∧ b ≤ 70 then some (b - 55)
  else none

mutual

/-- Parse the body of a JSON string (after the opening quote) up to and
including the closing quote, decoding escapes and UTF-8.  The helpers
handle a backslash escape, a `\u` hex escape, and 2-, 3- and 4-byte
UTF-8 sequences. -/
def parseStringBody : List Nat → Option (List Char × List Nat)
  | [] => none
  | b :: rest =>
    if b = 34 then some ([], rest)
    else if b = 92 then parseStringEscape rest
    else if b < 32 then none
    else if b < 128 then (parseStringBody rest).map (fun p => (Char.ofNat b :: p.1, p.2))
    else if 192 ≤ b ∧ b < 224 then parseStringCont1 b rest
    else if 224 ≤ b ∧ b < 240 then parseStringCont2 b rest
    else if 240 ≤ b ∧ b < 248 then parseStringCont3 b rest
    else none

/-- Decode one backslash escape and continue with the string body. -/
def parseStringEscape : List Nat → Option (List Char × List Nat)
  | [] => none
  | e :: rest2 =>
    if e = 34 then (parseStringBody rest2).map (fun p => (Char.ofNat 34 :: p.1, p.2))
    else if e = 92 then (parseStringBody rest2).map (fun p => (Char.ofNat 92 :: p.1, p.2))
    else if e = 98 then (parseStringBody rest2).map (fun p => (Char.ofNat 8 :: p.1, p.2))
    else if e = 116 then (parseStringBody rest2).map (fun p => (Char.ofNat 9 :: p.1, p.2))
    else if e = 110 then (parseStringBody rest2).map (fun p => (Char.ofNat 10 :: p.1, p.2))
    else if e = 102 then (parseStringBody rest2).map (fun p => (Char.ofNat 12 :: p.1, p.2))
    else if e = 114 then (parseStringBody rest2).map (fun p => (Char.ofNat 13 :: p.1, p.2))
    else if e = 117 then parseStringUnicode rest2
    else none

/-- Decode a four-hex-digit escape and continue with the string body. -/
def parseStringUnicode : List Nat → Option (List Char × List Nat)
  | h1 :: h2 :: h3 :: h4 :: rest3 =>
    match hexVal h1, hexVal h2, hexVal h3, hexVal h4 with
    | some v1, some v2, some v3, some v4 =>
      if ((v1 * 16 + v2) * 16 + v3) * 16 + v4 < 55296 then
        (parseStringBody rest3).map
          (fun p => (Char.ofNat (((v1 * 16 + v2) * 16 + v3) * 16 + v4) :: p.1, p.2))
      else none
    | _, _, _, _ => none
  | _ => none

/-- Decode the continuation byte of a 2-byte UTF-8 sequence. -/
def parseStringCont1 (b : Nat) : List Nat → Option (List Char × List Nat)
  | b1 :: rest2 =>
    if 128 ≤ b1 ∧ b1 < 192 then
      (parseStringBody rest2).map
        (fun p => (Char.ofNat ((b - 192) * 64 + (b1 - 128)) :: p.1, p.2))
    else none
  | [] => none

/-- Decode the continuation bytes of a 3-byte UTF-8 sequence. -/
def parseStringCont2 (b : Nat) : List Nat → Option (List Char × List Nat)
  | b1 :: b2 :: rest2 =>
    if (128 ≤ b1 ∧ b1 < 192) ∧ (128 ≤ b2 ∧ b2 < 192) then
      if (b - 224) * 4096 + (b1 - 128) * 64 + (b2 - 128) < 55296
          ∨ 57344 ≤ (b - 224) * 4096 + (b1 - 128) * 64 + (b2 - 128) then
        (parseStringBody rest2).map
          (fun p => (Char.ofNat ((b - 224) * 4096 + (b1 - 128) * 64 + (b2 - 128)) :: p.1, p.2))
      else none
    else none
  | _ => none

/-- Decode the continuation bytes of a 4-byte UTF-8 sequence. -/
def parseStringCont3 (b : Nat) : List Nat → Option (List Char × List Nat)
  | b1 :: b2 :: b3 :: rest2 =>
    if (128 ≤ b1 ∧ b1 < 192) ∧ (128 ≤ b2 ∧ b2 < 192) ∧ (128 ≤ b3 ∧ b3 < 192) then
      if (b - 240) * 262144 + (b1 - 128) * 4096 + (b2 - 128) * 64 + (b3 - 128) < 1114112 then
        (parseStringBody rest2).map
          (fun p => (Char.ofNat
            ((b - 240) * 262144 + (b1 - 128) * 4096 + (b2 - 128) * 64 + (b3 - 128)) :: p.1,
            p.2))
      else none
    else none
  | _ => none

end

/-- Tail of the literal `null` after its first byte. -/
def parseNullTail : List Nat → Option (Json × List Nat)
  | 117 :: 108 :: 108 :: r => some (Json.null, r)
  | _ => none

/-- Tail of the literal `true` after its first byte. -/
def parseTrueTail : List Nat → Option (Json × List Nat)
  | 114 :: 117 :: 101 :: r => some (Json.bool true, r)
  | _ => none

/-- Tail of the literal `false` after its first byte. -/
def parseFalseTail : List Nat → Option (Json × List Nat)
  | 97 :: 108 :: 115 :: 101 :: r => some (Json.bool false, r)
  | _ => none

/-- Close a non-empty array: the element parse must stop at `]`. -/
def arrOfElems : Option (List Json × List Nat) → Option (Json × List Nat)
  | some (es, 93 :: r2) => some (Json.arr es, r2)
  | _ => none

/-- Close a non-empty object: the member parse must stop at a right
brace. -/
def objOfMembers : Option (List (String × Json) × List Nat) → Option (Json × List Nat)
  | some (fs, 125 :: r2) => some (Json.obj fs, r2)
  | _ => none

/-- After `[`: empty array on an immediate `]`, otherwise close the
element parse (computed eagerly by the caller; it is only inspected in
the non-empty branch, so this agrees with the lazy reading). -/
def parseArrTail (pe : Option (List Json × List Nat)) : List Nat → Option (Json × List Nat)
  | [] => none
  | r0 :: rr => if r0 = 93 then some (Json.arr [], rr) else arrOfElems pe

/-- After a left brace: empty object on an immediate right brace,
otherwise close the member parse. -/
def parseObjTail (pm : Option (List (String × Json) × List Nat)) :
    List Nat → Option (Json × List Nat)
  | [] => none
  | r0 :: rr => if r0 = 125 then some (Json.obj [], rr) else objOfMembers pm

mutual

/-- Fuel-indexed parser of one JSON value from a byte stream.  Dispatches
on the first byte; returns the value and the unconsumed remainder.  The
second argument is serde_json's `remaining_depth`: entering an array or
object decrements it, and a decrement that reaches zero is the
`RecursionLimitExceeded` error (modelled as parse failure, which
`read_message` maps to its JSON-parse error like every serde error). -/
def parseValue : Nat → Nat → List Nat → Option (Json × List Nat)
  | 0, _, _ => none
  | _ + 1, _, [] => none
  | fuel + 1, depth, b :: rest =>
    if b = 110 then parseNullTail rest
    else if b = 116 then parseTrueTail rest
    else if b = 102 then parseFalseTail rest
    else if b = 34 then
      (parseStringBody rest).map (fun p => (Json.str (String.mk p.1), p.2))
    else if b = 91 then
      if depth - 1 = 0 then none
      else parseArrTail (parseElems fuel (depth - 1) rest) rest
    else if b = 123 then
      if depth - 1 = 0 then none
      else parseObjTail (parseMembers fuel (depth - 1) rest) rest
    else if b = 45 then
      (parseNumBytes rest).map (fun p => (Json.num (-(p.1 : Int)), p.2))
    else if isDigitByte b then
      (parseNumBytes (b :: rest)).map (fun p => (Json.num ((p.1 : Nat) : Int), p.2))
    else none

/-- Parse a comma-separated list of values (at least one) at the given
remaining depth. -/
def parseElems : Nat → Nat → List Nat → Option (List Json × List Nat)
  | 0, _, _ => none
  | fuel + 1, depth, bs =>
    match parseValue fuel depth bs with
    | none => none
    | some (v, r) =>
      match r with
      | 44 :: r2 =>
        match parseElems fuel depth r2 with
        | none => none
        | some (vs, r3) => some (v :: vs, r3)
      | _ => some ([v], r)

/-- Parse a comma-separated list of string-keyed members (at least one)
at the given remaining depth. -/
def parseMembers : Nat → Nat → List Nat → Option (List (String × Json) × List Nat)
  | 0, _, _ => none
  | fuel + 1, depth, bs =>
    match bs with
    | 34 :: rest =>
      match parseStringBody rest with
      | none => none
      | some (k, r) =>
        match r with
        | 58 :: r2 =>
          match parseValue fuel depth r2 with
          | none => none
          | some (v, r3) =>
            match r3 with
            | 44 :: r4 =>
              match parseMembers fuel depth r4 with
              | none => none
              | some (kvs, r5) => some ((String.mk k, v) :: kvs, r5)
            | _ => some ([(String.mk k, v)], r3)
        | _ => none
    | _ => none

end

/-! ## Envelope (de)serialization (serde derive on `RpcMessage`) -/

/-- Serialize an id (serde untagged). -/
def idToJson : RpcId → Json
  | .num n => .num n
  | .str s => .str s

/-- Serialize an error object; the `data` field is omitted when `none`. -/
def errorToJson (e : RpcError) : Json :=
  .obj ([(("code"), Json.num e.code), (("message"), Json.str e.message)]
    ++ (match e.data with | some d => [(("data"), d)] | none => []))

/-- The field list `[(k, f v)]` when `o = some v`, empty when `none` —
serde's `skip_serializing_if = Option::is_none`. -/
def optPart (k : String) (o : Option Json) : List (String × Json) :=
  match o with
  | some j => [(k, j)]
  | none => []

/-- Serialize the envelope: fields in declaration order, `none` fields
omitted. -/
def messageToJson (m : RpcMessage) : Json :=
  .obj ([(("jsonrpc"), Json.str m.jsonrpc)]
    ++ optPart ("id") (m.id.map idToJson)
    ++ optPart ("method") (m.method.map Json.str)
    ++ optPart ("params") m.params
    ++ optPart ("result") m.result
    ++ optPart ("error") (m.error.map errorToJson))

/-- serde's `Option<T>` field deserialization: absent or JSON `null`
yields `none`; anything else must deserialize as `T`. -/
def optField {α : Type _} (fs : List (String × Json)) (k : String) (f : Json → Option α) :
    Option (Option α) :=
  match jsonLookupList fs k with
  | none => some none
  | some .null => some none
  | some j => (f j).map some

/-- Deserialize an id (serde untagged: integer or string). -/
def idFromJson : Json → Option RpcId
  | .num n => some (.num n)
  | .str s => some (.str s)
  | _ => none

/-- Deserialize an error object (`code` and `message` required, `data`
optional; unknown fields ignored). -/
def errorFromJson : Json → Option RpcError
  | .obj fs =>
    match jsonLookupList fs ("code") with
    | some (.num code) =>
      (match jsonLookupList fs ("message") with
       | some (.str message) =>
         (match optField fs ("data") some with
          | some data => some { code := code, message := message, data := data }
          | none => none)
       | _ => none)
    | _ => none
  | _ => none

/-- Deserialize the envelope (serde derive: `jsonrpc` required string,
optional fields defaulting to `none`, unknown fields ignored). -/
def messageFromJson : Json → Option RpcMessage
  | .obj fs =>
    match jsonLookupList fs ("jsonrpc") with
    | some (.str jsonrpc) =>
      (match optField fs ("id") idFromJson with
       | none => none
       | some id =>
       match optField fs ("method") asStr with
       | none => none
       | some method =>
       match optField fs ("params") some with
       | none => none
       | some params =>
       match optField fs ("result") some with
       | none => none
       | some result =>
       match optField fs ("error") errorFromJson with
       | none => none
       | some error =>
         some { jsonrpc := jsonrpc, id := id, method := method, params := params,
                result := result, error := error })
    | _ => none
  | _ => none

/-- The value collapse a serialization round trip applies to optional
JSON-valued fields: a present `null` reads back as absent. -/
def jnormOpt : Option Json → Option Json
  | some .null => none
  | o => o

/-- The round-trip normal form of an envelope: `params`, `result` and
`error.data` lose a literal `null` value; all other fields are
unchanged. -/
def msgNormalize (m : RpcMessage) : RpcMessage :=
  { m with
    params := jnormOpt m.params
    result := jnormOpt m.result
    error := m.error.map (fun e => { e with data := jnormOpt e.data }) }

/-! ## `src/framing.rs`: the Content-Length framing -/

/-- Modelled from the spec and usage: `error.rs` is absent from the
snapshot; these are the framing failures of §4.1 (`UnexpectedEof` is
carried as `ioError`). -/
inductive FramingError where
  | ioError (msg : String)
  | missingContentLength
  | invalidContentLength
  | jsonParse
deriving DecidableEq

/-- The bytes of an ASCII string literal. -/
def asciiBytes (s : String) : List Nat := s.data.map Char.toNat

/-- The header block `Content-Length: <n>\r\n\r\n` written by
`write_message` (framing.rs:100). -/
def headerBytes (n : Nat) : List Nat :=
  asciiBytes ("Content-Length: ") ++ natDigits n ++ [13, 10, 13, 10]

/-- `write_message` (framing.rs:92-107): serialize, then emit the header
block followed by the serialized bytes. -/
def writeMessageBytes (m : RpcMessage) : List Nat :=
  headerBytes (renderJson (messageToJson m)).length ++ renderJson (messageToJson m)

/-- One `read_line`: everything up to and including the first newline
byte (or the whole rest at EOF). -/
def splitLineGo : List Nat → List Nat × List Nat
  | [] => ([], [])
  | b :: rest =>
    if b = 10 then ([10], rest)
    else
      let p := splitLineGo rest
      (b :: p.1, p.2)

/-- `read_line` with EOF detection: `none` iff no bytes remain. -/
def splitLine : List Nat → Option (List Nat × List Nat)
  | [] => none
  | b :: rest => some (splitLineGo (b :: rest))

/-- ASCII whitespace, as trimmed from header lines (`str::trim` also
trims other Unicode whitespace, which cannot occur in a header). -/
def isWsByte (b : Nat) : Bool := b == 32 || b == 9 || b == 10 || b == 13

/-- Drop trailing whitespace bytes. -/
def dropTrailingWs : List Nat → List Nat
  | [] => []
  | b :: rest =>
    let r := dropTrailingWs rest
    if r.isEmpty && isWsByte b then [] else b :: r

/-- `str::trim` on a header line. -/
def trimBytes (bs : List Nat) : List Nat := dropTrailingWs (bs.dropWhile isWsByte)

/-- `strip_prefix`: consume an exact leading byte pattern. -/
def dropExact : List Nat → List Nat → Option (List Nat)
  | [], bs => some bs
  | _ :: _, [] => none
  | p :: ps, b :: bs => if b = p then dropExact ps bs else none

/-- `str::parse::<usize>` on the header value: one or more digits,
nothing else (the optional `+` sign Rust would accept never occurs). -/
def parseUsizeBytes (bs : List Nat) : Option Nat :=
  match bs with
  | [] => none
  | b :: _ =>
    if isDigitByte b then
      (match parseDigitsLoop 0 bs with
       | (n, []) => some n
       | _ => none)
    else none

/-- `read_headers` (framing.rs:41-74): read lines until the blank
`\r\n` line, remembering the last `Content-Length` value; fail on EOF,
on an unparsable length, or on a missing length.  The fuel is an upper
bound on the number of lines (callers pass `length + 1`). -/
def readHeadersAux : Nat → List Nat → Option Nat → Except FramingError (Nat × List Nat)
  | 0, _, _ => .error (.ioError ("header loop fuel exhausted"))
  | fuel + 1, bs, acc =>
    match splitLine bs with
    | none => .error (.ioError ("EOF while reading headers"))
    | some (line, rest) =>
      if line = [13, 10] then
        match acc with
        | some n => .ok (n, rest)
        | none => .error .missingContentLength
      else
        match dropExact (asciiBytes ("Content-Length: ")) (trimBytes line) with
        | some numBytes =>
          (match parseUsizeBytes numBytes with
           | some n => readHeadersAux fuel rest (some n)
           | none => .error .invalidContentLength)
        | none => readHeadersAux fuel rest acc

/-- `read_message` (framing.rs:22-39): read the header block, read
exactly `Content-Length` bytes, parse them as JSON (which must consume
the whole slice and respects the default 128-deep recursion limit, as
`serde_json::from_slice` does) and deserialize the envelope.  Returns
the message and the unconsumed remainder of the stream. -/
def readMessageBytes (bs : List Nat) : Except FramingError (RpcMessage × List Nat) :=
  match readHeadersAux (bs.length + 1) bs none with
  | .error e => .error e
  | .ok (n, rest) =>
    if rest.length < n then .error (.ioError ("EOF while reading content"))
    else
      match parseValue (2 * (rest.take n).length + 2) 128 (rest.take n) with
      | some (j, []) =>
        (match messageFromJson j with
         | some m => .ok (m, rest.drop n)
         | none => .error .jsonParse)
      | _ => .error .jsonParse

/-! ## `src/proxy.rs`: the `textDocument/didChange` handler -/

/-- `OpenDocument` of the single-backend generation (state.rs:7-12). -/
structure OpenDocument where
  languageId : String
  version : Int
  text : String

/-- The wrapping `as i32` cast applied to the `as_i64` version
(proxy.rs:438-441). -/
def i64ToI32 (v : Int) : Int := (v + 2 ^ 31) % 2 ^ 32 - 2 ^ 31

/-- In-place update of the cached document at a URI (models
`open_documents.get_mut` followed by field assignment; URIs are modelled
as opaque strings, `url::Url` parsing and normalization being out of
scope). -/
def updateDocs (docs : List (String × OpenDocument)) (uri : String) (d : OpenDocument) :
    List (String × OpenDocument) :=
  docs.map (fun e => if e.1 == uri then (e.1, d) else e)

/-- `handle_did_change` (proxy.rs:429-489): extract the URI and declared
version, take the LAST item of `contentChanges` and replace the cached
document's text with that item's `text` wholesale (the code assumes full
sync and never consults a `range`); the version is replaced only when an
integer version was declared.  Every shape mismatch (missing fields, empty
change list, unopened document) leaves the cache unchanged, and the
function always returns `Ok`. -/
def handleDidChange (docs : List (String × OpenDocument)) (msg : RpcMessage) :
    List (String × OpenDocument) :=
  match msg.params with
  | none => docs
  | some params =>
    match jsonGet params ("textDocument") with
    | none => docs
    | some textDocument =>
      match (jsonGet textDocument ("uri")).bind asStr with
      | none => docs
      | some uriStr =>
        let version := ((jsonGet textDocument ("version")).bind asI64).map i64ToI32
        match jsonGet params ("contentChanges") with
        | none => docs
        | some contentChanges =>
          match asArr contentChanges with
          | none => docs
          | some changes =>
            if changes.isEmpty then docs
            else
              match changes.getLast? with
              | none => docs
              | some lastChange =>
                match (jsonGet lastChange ("text")).bind asStr with
                | none => docs
                | some newText =>
                  match assocLookup docs uriStr with
                  | none => docs
                  | some doc =>
                    updateDocs docs uriStr
                      { doc with
                        text := newText
                        version := match version with | some v => v | none => doc.version }

/-! ## Concrete fixtures used by witnesses and counterexamples -/

/-- A concrete notification message. -/
def wMsg : RpcMessage :=
  { jsonrpc := "2.0", id := none, method := some ("window/logMessage"), params := none,
    result := none, error := none }

/-- A concrete response whose id is in no pending table. -/
def respUnknown : RpcMessage :=
  { jsonrpc := "2.0", id := some (RpcId.num 7), method := none, params := none,
    result := none, error := none }

/-- A concrete ready backend instance with session 1. -/
def wInst : BackendInstance := { session := 1, warming := false, warmupQueue := [] }

/-- A concrete pending client→backend request entry tied to ("v", 1). -/
def wPending : PendingRequest := { venvPath := "v", backendSession := 1 }

/-- A concrete cached document under environment "v". -/
def wDoc : PooledDocument :=
  { languageId := "python", version := 0, text := "t", venv := some ("v") }

/-- A concrete pool state: one live backend ("v", session 1). -/
def wState : PoolState :=
  { pool := [(("v"), wInst)], pendingRequests := [], pendingBackendRequests := [],
    openDocuments := [], nextProxyId := 0, nextSession := 2 }

/-- A cached document for the didChange fixtures. -/
def c1Doc : OpenDocument := { languageId := "python", version := 0, text := "hello world" }

/-- A concrete LSP range selecting the first five characters of line 0. -/
def c1Range : Json :=
  Json.obj [(("start"), Json.obj [(("line"), Json.num 0), (("character"), Json.num 0)]),
            (("end"), Json.obj [(("line"), Json.num 0), (("character"), Json.num 5)])]

/-- A `textDocument/didChange` notification with version 2 and one RANGED
change item replacing characters 0-5 with "hi". -/
def c1Msg : RpcMessage :=
  { jsonrpc := "2.0", id := none, method := some ("textDocument/didChange")
    params := some (Json.obj
      [(("textDocument"), Json.obj
          [(("uri"), Json.str ("file:///a.py")), (("version"), Json.num 2)]),
       (("contentChanges"), Json.arr
          [Json.obj [(("range"), c1Range), (("text"), Json.str ("hi"))]])])
    result := none
    error := none }

/-- The document cache holding `c1Doc` at the fixture URI. -/
def c1Docs : List (String × OpenDocument) := [(("file:///a.py"), c1Doc)]

/-- `wState` with one pending request tied to ("v", 1). -/
def c3State : PoolState :=
  { pool := [(("v"), wInst)], pendingRequests := [(RpcId.num 4, wPending)],
    pendingBackendRequests := [], openDocuments := [], nextProxyId := 0, nextSession := 2 }

/-- `wState` with one cached document under environment "v". -/
def c4State : PoolState :=
  { pool := [(("v"), wInst)], pendingRequests := [], pendingBackendRequests := [],
    openDocuments := [(("file:///x.py"), wDoc)], nextProxyId := 0, nextSession := 2 }

/-- A request carrying an explicit `null` params value. -/
def c6Msg : RpcMessage :=
  { jsonrpc := "2.0", id := some (RpcId.num 1), method := some ("shutdown"),
    params := some Json.null, result := none, error := none }

/-! # Theorems -/

/-! ## Generic facts about lengths and characters -/

theorem utf8Len_nil : utf8Len [] = 0 := rfl

theorem utf8Len_cons (c : Char) (cs : List Char) :
    utf8Len (c :: cs) = charUtf8Size c + utf8Len cs := by
  simp [utf8Len]

theorem utf8Len_append (a b : List Char) :
    utf8Len (a ++ b) = utf8Len a + utf8Len b := by
  simp [utf8Len]

theorem utf16Len_nil : utf16Len [] = 0 := rfl

theorem utf16Len_cons (c : Char) (cs : List Char) :
    utf16Len (c :: cs) = charUtf16Size c + utf16Len cs := by
  simp [utf16Len]

theorem utf16Len_append (a b : List Char) :
    utf16Len (a ++ b) = utf16Len a + utf16Len b := by
  simp [utf16Len]

theorem charUtf8Size_pos (c : Char) : 1 ≤ charUtf8Size c := by
  unfold charUtf8Size; split_ifs <;> omega

theorem charUtf8Size_of_nl {c : Char} (h : isNl c = true) : charUtf8Size c = 1 := by
  have hc : c.toNat = 10 := by simpa [isNl] using h
  unfold charUtf8Size
  rw [hc]
  norm_num

/-! ## `find_offset_in_line` -/

/-- Clamping: when `character` exceeds the UTF-16 length of the remaining
line, `find_offset_in_line` returns the line-end offset. -/
theorem findOffsetInLine_clamp :
    ∀ (cs : List Char) (pos lineEnd ch u : Nat), u + utf16Len cs < ch →
      findOffsetInLine cs pos lineEnd ch u = lineEnd := by
  intro cs
  induction cs with
  | nil => intro pos lineEnd ch u _; rfl
  | cons c rest ih =>
    intro pos lineEnd ch u h
    rw [utf16Len_cons] at h
    have hgt : ¬ ch ≤ u := by omega
    simp only [findOffsetInLine, if_neg hgt]
    exact ih _ _ _ _ (by omega)

/-- Every offset returned by `find_offset_in_line` is the line end or the
byte offset of one of the line's character boundaries. -/
theorem findOffsetInLine_cases :
    ∀ (cs : List Char) (pos lineEnd ch u : Nat),
      findOffsetInLine cs pos lineEnd ch u = lineEnd ∨
      ∃ k, k ≤ cs.length ∧ findOffsetInLine cs pos lineEnd ch u = pos + utf8Len (cs.take k) := by
  intro cs
  induction cs with
  | nil => intro pos lineEnd ch u; exact Or.inl rfl
  | cons c rest ih =>
    intro pos lineEnd ch u
    by_cases hle : ch ≤ u
    · right
      refine ⟨0, by omega, ?_⟩
      simp [findOffsetInLine, if_pos hle, utf8Len]
    · simp only [findOffsetInLine, if_neg hle]
      rcases ih (pos + charUtf8Size c) lineEnd ch (u + charUtf16Size c) with h | ⟨k, hk, h⟩
      · exact Or.inl h
      · right
        refine ⟨k + 1, by simpa using Nat.succ_le_succ hk, ?_⟩
        rw [h]
        simp [utf8Len_cons]
        omega

/-! ## Small-step equations for the line bookkeeping -/

theorem lineChars_nil (n : Nat) : lineChars [] n = [] := rfl

theorem lineChars_nl_zero {c : Char} (rest : List Char) (h : isNl c = true) :
    lineChars (c :: rest) 0 = [] := by simp [lineChars, h]

theorem lineChars_nl_succ {c : Char} (rest : List Char) (m : Nat) (h : isNl c = true) :
    lineChars (c :: rest) (m + 1) = lineChars rest m := by simp [lineChars, h]

theorem lineChars_other_zero {c : Char} (rest : List Char) (h : isNl c = false) :
    lineChars (c :: rest) 0 = c :: lineChars rest 0 := by simp [lineChars, h]

theorem lineChars_other_succ {c : Char} (rest : List Char) (m : Nat) (h : isNl c = false) :
    lineChars (c :: rest) (m + 1) = lineChars rest (m + 1) := by simp [lineChars, h]

theorem lineStartByte_zero (cs : List Char) : lineStartByte cs 0 = 0 := by
  cases cs <;> rfl

theorem lineStartByte_nl {c : Char} (rest : List Char) (m : Nat) (h : isNl c = true) :
    lineStartByte (c :: rest) (m + 1) = 1 + lineStartByte rest m := by
  simp [lineStartByte, h]

theorem lineStartByte_other {c : Char} (rest : List Char) (m : Nat) (h : isNl c = false) :
    lineStartByte (c :: rest) (m + 1) = charUtf8Size c + lineStartByte rest (m + 1) := by
  simp [lineStartByte, h]

theorem countNl_nil : countNl [] = 0 := rfl

theorem countNl_cons (c : Char) (rest : List Char) :
    countNl (c :: rest) = (if isNl c then 1 else 0) + countNl rest := rfl

theorem positionToOffsetGo_nil (line ch pos curLine lineStart : Nat) (acc : List Char) :
    positionToOffsetGo line ch [] pos curLine lineStart acc =
      if curLine = line then .ok (findOffsetInLine acc lineStart pos ch 0)
      else .error (.invalidMessage (posOutOfRangeMsg line curLine ch)) := rfl

theorem positionToOffsetGo_nl_hit {c : Char} {curLine line : Nat}
    (ch pos lineStart : Nat) (rest acc : List Char)
    (hnl : isNl c = true) (hcur : curLine = line) :
    positionToOffsetGo line ch (c :: rest) pos curLine lineStart acc =
      .ok (findOffsetInLine acc lineStart pos ch 0) := by
  simp [positionToOffsetGo, hnl, hcur]

theorem positionToOffsetGo_nl_miss {c : Char} {curLine line : Nat}
    (ch pos lineStart : Nat) (rest acc : List Char)
    (hnl : isNl c = true) (hcur : ¬ curLine = line) :
    positionToOffsetGo line ch (c :: rest) pos curLine lineStart acc =
      positionToOffsetGo line ch rest (pos + 1) (curLine + 1) (pos + 1) [] := by
  simp [positionToOffsetGo, hnl, hcur]

theorem positionToOffsetGo_other {c : Char}
    (line ch pos curLine lineStart : Nat) (rest acc : List Char)
    (hnl : isNl c = false) :
    positionToOffsetGo line ch (c :: rest) pos curLine lineStart acc =
      positionToOffsetGo line ch rest (pos + charUtf8Size c) curLine lineStart (acc ++ [c]) := by
  simp [positionToOffsetGo, hnl]

/-! ## The `position_to_offset` loop -/

/-- Lines strictly beyond the accepted range produce `InvalidMessage`. -/
theorem positionToOffsetGo_err :
    ∀ (cs : List Char) (pos curLine lineStart : Nat) (acc : List Char) (line ch : Nat),
      curLine + countNl cs < line →
      exceptIsError (positionToOffsetGo line ch cs pos curLine lineStart acc) = true := by
  intro cs
  induction cs with
  | nil =>
    intro pos curLine lineStart acc line ch h
    rw [countNl_nil] at h
    have hne : ¬ curLine = line := by omega
    rw [positionToOffsetGo_nil, if_neg hne]
    rfl
  | cons c rest ih =>
    intro pos curLine lineStart acc line ch h
    rw [countNl_cons] at h
    by_cases hnl : isNl c
    · have hne : ¬ curLine = line := by rw [if_pos hnl] at h; omega
      rw [positionToOffsetGo_nl_miss _ _ _ _ _ hnl hne]
      exact ih _ _ _ _ _ _ (by rw [if_pos hnl] at h; omega)
    · rw [positionToOffsetGo_other _ _ _ _ _ _ _ (by simpa using hnl)]
      exact ih _ _ _ _ _ _ (by rw [if_neg hnl] at h; omega)

/-- A newline-terminated text accepts the line one past its final newline
as an empty line and maps every character position on it to the end of the
text. -/
theorem positionToOffsetGo_endNl :
    ∀ (cs : List Char) (pos curLine lineStart : Nat) (acc : List Char) (line ch : Nat),
      endsWithNl cs = true → line = curLine + countNl cs →
      positionToOffsetGo line ch cs pos curLine lineStart acc = .ok (pos + utf8Len cs) := by
  intro cs
  induction cs with
  | nil => intro _ _ _ _ _ _ h _; simp [endsWithNl] at h
  | cons c rest ih =>
    intro pos curLine lineStart acc line ch hend hline
    rw [countNl_cons] at hline
    cases rest with
    | nil =>
      have hnl : isNl c = true := by simpa [endsWithNl] using hend
      rw [if_pos hnl, countNl_nil] at hline
      have hne : ¬ curLine = line := by omega
      rw [positionToOffsetGo_nl_miss _ _ _ _ _ hnl hne]
      rw [positionToOffsetGo_nil, if_pos (by omega)]
      rw [utf8Len_cons, utf8Len_nil, charUtf8Size_of_nl hnl]
      rfl
    | cons c2 rest2 =>
      have hend2 : endsWithNl (c2 :: rest2) = true := by simpa [endsWithNl] using hend
      by_cases hnl : isNl c
      · rw [if_pos hnl] at hline
        have hne : ¬ curLine = line := by omega
        rw [positionToOffsetGo_nl_miss _ _ _ _ _ hnl hne]
        rw [ih _ _ _ _ _ _ hend2 (by omega)]
        have hsz := charUtf8Size_of_nl hnl
        simp only [utf8Len_cons, Except.ok.injEq]
        omega
      · have hnl2 : isNl c = false := by simpa using hnl
        rw [if_neg hnl] at hline
        rw [positionToOffsetGo_other _ _ _ _ _ _ _ hnl2]
        rw [ih _ _ _ _ _ _ hend2 (by omega)]
        simp only [utf8Len_cons, Except.ok.injEq]
        omega

/-- Reaching the target line with a `character` beyond the line's UTF-16
length clamps to the line's end offset. -/
theorem positionToOffsetGo_target :
    ∀ (cs : List Char) (pos lineStart : Nat) (acc : List Char) (line ch : Nat),
      utf16Len acc + utf16Len (lineChars cs 0) < ch →
      positionToOffsetGo line ch cs pos line lineStart acc =
        .ok (pos + utf8Len (lineChars cs 0)) := by
  intro cs
  induction cs with
  | nil =>
    intro pos lineStart acc line ch h
    rw [lineChars_nil, utf16Len_nil] at h
    rw [positionToOffsetGo_nil, if_pos rfl,
      findOffsetInLine_clamp acc lineStart pos ch 0 (by omega)]
    rw [lineChars_nil, utf8Len_nil]
    rfl
  | cons c rest ih =>
    intro pos lineStart acc line ch h
    by_cases hnl : isNl c
    · rw [lineChars_nl_zero _ hnl, utf16Len_nil] at h
      rw [positionToOffsetGo_nl_hit _ _ _ _ _ hnl rfl,
        findOffsetInLine_clamp acc lineStart pos ch 0 (by omega)]
      rw [lineChars_nl_zero _ hnl, utf8Len_nil]
      rfl
    · have hnl2 : isNl c = false := by simpa using hnl
      rw [lineChars_other_zero _ hnl2, utf16Len_cons] at h
      rw [positionToOffsetGo_other _ _ _ _ _ _ _ hnl2]
      rw [ih _ _ _ _ _ (by rw [utf16Len_append, utf16Len_cons, utf16Len_nil]; omega)]
      rw [lineChars_other_zero _ hnl2]
      simp only [utf8Len_cons, Except.ok.injEq]
      omega

/-- Skipping `m ≥ 1` lines to reach the target line, with a clamping
`character`, yields the target line's end offset. -/
theorem positionToOffsetGo_skip :
    ∀ (cs : List Char) (m pos curLine lineStart : Nat) (acc : List Char) (line ch : Nat),
      line = curLine + m → 1 ≤ m → m ≤ countNl cs →
      utf16Len (lineChars cs m) < ch →
      positionToOffsetGo line ch cs pos curLine lineStart acc =
        .ok (pos + lineStartByte cs m + utf8Len (lineChars cs m)) := by
  intro cs
  induction cs with
  | nil =>
    intro m pos curLine lineStart acc line ch _ h1 h2 _
    rw [countNl_nil] at h2; omega
  | cons c rest ih =>
    intro m pos curLine lineStart acc line ch hline hm hcnt hch
    rw [countNl_cons] at hcnt
    by_cases hnl : isNl c
    · have hne : ¬ curLine = line := by omega
      rw [positionToOffsetGo_nl_miss _ _ _ _ _ hnl hne]
      rw [if_pos hnl] at hcnt
      cases m with
      | zero => omega
      | succ m0 =>
        rw [lineChars_nl_succ _ _ hnl] at hch
        rw [lineStartByte_nl _ _ hnl, lineChars_nl_succ _ _ hnl]
        cases m0 with
        | zero =>
          have hl : curLine + 1 = line := by omega
          rw [← hl]
          rw [positionToOffsetGo_target rest (pos + 1) (pos + 1) [] (curLine + 1) ch
            (by rw [utf16Len_nil]; omega)]
          rw [lineStartByte_zero]
        | succ m1 =>
          rw [ih (m1 + 1) (pos + 1) (curLine + 1) (pos + 1) [] line ch (by omega) (by omega)
            (by omega) hch]
          simp only [Except.ok.injEq]
          omega
    · have hnl2 : isNl c = false := by simpa using hnl
      rw [positionToOffsetGo_other _ _ _ _ _ _ _ hnl2]
      rw [if_neg hnl] at hcnt
      cases m with
      | zero => omega
      | succ m0 =>
        rw [lineChars_other_succ _ _ hnl2] at hch
        rw [lineStartByte_other _ _ hnl2, lineChars_other_succ _ _ hnl2]
        rw [ih (m0 + 1) (pos + charUtf8Size c) curLine lineStart (acc ++ [c]) line ch hline
          (by omega) (by omega) hch]
        simp only [Except.ok.injEq]
        omega

/-- Every error produced by the `position_to_offset` loop is an
`InvalidMessage`. -/
theorem positionToOffsetGo_err_shape :
    ∀ (cs : List Char) (pos curLine lineStart : Nat) (acc : List Char) (line ch : Nat)
      (e : ProxyError),
      positionToOffsetGo line ch cs pos curLine lineStart acc = .error e →
      ∃ s, e = .invalidMessage s := by
  intro cs
  induction cs with
  | nil =>
    intro pos curLine lineStart acc line ch e h
    rw [positionToOffsetGo_nil] at h
    by_cases hc : curLine = line
    · rw [if_pos hc] at h; cases h
    · rw [if_neg hc] at h
      injection h with h2
      exact ⟨_, h2.symm⟩
  | cons c rest ih =>
    intro pos curLine lineStart acc line ch e h
    by_cases hnl : isNl c
    · by_cases hc : curLine = line
      · rw [positionToOffsetGo_nl_hit _ _ _ _ _ hnl hc] at h; cases h
      · rw [positionToOffsetGo_nl_miss _ _ _ _ _ hnl hc] at h
        exact ih _ _ _ _ _ _ _ h
    · rw [positionToOffsetGo_other _ _ _ _ _ _ _ (by simpa using hnl)] at h
      exact ih _ _ _ _ _ _ _ h

/-- Every `Ok` offset of the `position_to_offset` loop splits the full
text: the invariants are `pos = utf8Len (pre ++ mid)` and
`lineStart = utf8Len pre`, where `pre` is the consumed part up to the
current line start and `mid` the consumed part of the current line. -/
theorem positionToOffsetGo_boundary :
    ∀ (cs pre mid : List Char) (curLine line ch off pos lineStart : Nat),
      pos = utf8Len pre + utf8Len mid → lineStart = utf8Len pre →
      positionToOffsetGo line ch cs pos curLine lineStart mid = .ok off →
      ∃ zs ys, pre ++ mid ++ cs = zs ++ ys ∧ off = utf8Len zs := by
  intro cs
  induction cs with
  | nil =>
    intro pre mid curLine line ch off pos lineStart hpos hls h
    rw [positionToOffsetGo_nil] at h
    by_cases hc : curLine = line
    · rw [if_pos hc] at h
      injection h with h2
      rcases findOffsetInLine_cases mid lineStart pos ch 0 with hf | ⟨k, hk, hf⟩
      · refine ⟨pre ++ mid, [], by simp, ?_⟩
        rw [utf8Len_append]
        omega
      · refine ⟨pre ++ mid.take k, mid.drop k, ?_, ?_⟩
        · simp [List.append_assoc]
        · rw [utf8Len_append]
          omega
    · rw [if_neg hc] at h; cases h
  | cons c rest ih =>
    intro pre mid curLine line ch off pos lineStart hpos hls h
    by_cases hnl : isNl c
    · by_cases hc : curLine = line
      · rw [positionToOffsetGo_nl_hit _ _ _ _ _ hnl hc] at h
        injection h with h2
        rcases findOffsetInLine_cases mid lineStart pos ch 0 with hf | ⟨k, hk, hf⟩
        · refine ⟨pre ++ mid, c :: rest, by simp, ?_⟩
          rw [utf8Len_append]
          omega
        · refine ⟨pre ++ mid.take k, mid.drop k ++ (c :: rest), ?_, ?_⟩
          · simp only [List.append_assoc]
            rw [← List.append_assoc (mid.take k) (mid.drop k), List.take_append_drop]
          · rw [utf8Len_append]
            omega
      · rw [positionToOffsetGo_nl_miss _ _ _ _ _ hnl hc] at h
        have hsz := charUtf8Size_of_nl hnl
        rcases ih (pre ++ mid ++ [c]) [] (curLine + 1) line ch off (pos + 1) (pos + 1)
          (by rw [utf8Len_append, utf8Len_append, utf8Len_cons, utf8Len_nil]; omega)
          (by rw [utf8Len_append, utf8Len_append, utf8Len_cons, utf8Len_nil]; omega)
          h with ⟨zs, ys, heq, hoff⟩
        refine ⟨zs, ys, ?_, hoff⟩
        rw [← heq]
        simp
    · rw [positionToOffsetGo_other _ _ _ _ _ _ _ (by simpa using hnl)] at h
      rcases ih pre (mid ++ [c]) curLine line ch off (pos + charUtf8Size c) lineStart
        (by rw [utf8Len_append, utf8Len_cons, utf8Len_nil]; omega) hls h with ⟨zs, ys, heq, hoff⟩
      refine ⟨zs, ys, ?_, hoff⟩
      rw [← heq]
      simp

/-- `position_to_offset` only returns byte offsets that split the text at
a character boundary, and such offsets never exceed the total byte
length. -/
theorem positionToOffset_ok_boundary (text : List Char) (line ch off : Nat)
    (h : positionToOffset text line ch = .ok off) :
    off ≤ utf8Len text ∧ ∃ k, off = utf8Len (text.take k) := by
  have h2 : positionToOffsetGo line ch text (utf8Len [] + utf8Len []) 0 (utf8Len []) [] =
      .ok off := by simpa [utf8Len_nil, positionToOffset] using h
  rcases positionToOffsetGo_boundary text [] [] 0 line ch off _ _ rfl rfl h2 with
    ⟨zs, ys, heq, hoff⟩
  simp only [List.nil_append] at heq
  constructor
  · rw [heq, utf8Len_append]
    omega
  · refine ⟨zs.length, ?_⟩
    rw [heq, List.take_left]
    exact hoff

/-! ## `splitAtByte` and `replace_range` safety -/

theorem splitAtByte_zero (t : List Char) : splitAtByte t 0 = some ([], t) := by
  cases t <;> rfl

theorem splitAtByte_succ (c : Char) (rest : List Char) (m : Nat) :
    splitAtByte (c :: rest) (m + 1) =
      if charUtf8Size c ≤ m + 1 then
        (splitAtByte rest (m + 1 - charUtf8Size c)).map (fun p => (c :: p.1, p.2))
      else none := rfl

/-- Splitting at the byte length of a `take`-prefix always succeeds and
returns that prefix. -/
theorem splitAtByte_take :
    ∀ (k : Nat) (t : List Char), splitAtByte t (utf8Len (t.take k)) = some (t.take k, t.drop k) := by
  intro k
  induction k with
  | zero =>
    intro t
    rw [List.take_zero, utf8Len_nil, splitAtByte_zero, List.drop_zero]
  | succ k ih =>
    intro t
    cases t with
    | nil =>
      rw [List.take_nil, utf8Len_nil, splitAtByte_zero, List.drop_nil]
    | cons c rest =>
      rw [List.take_succ_cons, List.drop_succ_cons, utf8Len_cons]
      have hpos := charUtf8Size_pos c
      obtain ⟨m, hm⟩ : ∃ m, charUtf8Size c + utf8Len (rest.take k) = m + 1 :=
        ⟨charUtf8Size c + utf8Len (rest.take k) - 1, by omega⟩
      rw [hm, splitAtByte_succ, if_pos (by omega)]
      have hrew : m + 1 - charUtf8Size c = utf8Len (rest.take k) := by omega
      rw [hrew, ih rest]
      rfl

/-- If both ends are character-boundary offsets with `start ≤ end`, the
checked `replace_range` succeeds (does not model a panic). -/
theorem replaceRangeChecked_isSome (t newText : List Char) (k1 k2 : Nat)
    (hle : utf8Len (t.take k1) ≤ utf8Len (t.take k2)) :
    (replaceRangeChecked t (utf8Len (t.take k1)) (utf8Len (t.take k2)) newText).isSome = true := by
  unfold replaceRangeChecked
  rw [if_pos hle, splitAtByte_take k1 t, splitAtByte_take k2 t]
  rfl

/-! ## `apply_incremental_change` -/

/-- The mutable-form edit either succeeds or leaves the text unchanged. -/
theorem applyIncrementalChangeMut_cases (text : List Char) (range : Json)
    (newText : List Char) :
    (applyIncrementalChangeMut text range newText).1 = .ok () ∨
    (applyIncrementalChangeMut text range newText).2 = text := by
  unfold applyIncrementalChangeMut
  repeat first
  | (left; rfl)
  | (right; rfl)
  | split

/-- The value-form edit agrees with the mutable form. -/
theorem applyIncrementalChange_err_iff (text : List Char) (range : Json)
    (newText : List Char) (e : ProxyError) :
    applyIncrementalChange text range newText = .error e ↔
    (applyIncrementalChangeMut text range newText).1 = .error e := by
  unfold applyIncrementalChange
  rcases hm : applyIncrementalChangeMut text range newText with ⟨res, t2⟩
  cases res with
  | ok u => cases u; simp
  | error e2 => simp

/-- Errors of `position_to_offset` are always `InvalidMessage`. -/
theorem positionToOffset_err_shape (text : List Char) (line ch : Nat) (e : ProxyError)
    (h : positionToOffset text line ch = .error e) : ∃ s, e = .invalidMessage s :=
  positionToOffsetGo_err_shape text 0 0 0 [] line ch e h

/-- The panic marker is unreachable: whenever both offsets come back `Ok`
and pass the order check, the checked `replace_range` succeeds. -/
theorem applyIncrementalChange_no_panic (text : List Char) (range : Json)
    (newText : List Char) :
    applyIncrementalChange text range newText ≠ .error .replaceRangeViolation := by
  intro h
  rw [applyIncrementalChange_err_iff] at h
  unfold applyIncrementalChangeMut at h
  rcases h1 : jsonGet range ("start") with _ | sp
  · simp [h1] at h
  simp only [h1] at h
  rcases h2 : jsonGet range ("end") with _ | ep
  · simp [h2] at h
  simp only [h2] at h
  rcases h3 : (jsonGet sp ("line")).bind asU64 with _ | sl
  · simp [h3] at h
  simp only [h3] at h
  rcases h4 : (jsonGet sp ("character")).bind asU64 with _ | sc
  · simp [h4] at h
  simp only [h4] at h
  rcases h5 : (jsonGet ep ("line")).bind asU64 with _ | el
  · simp [h5] at h
  simp only [h5] at h
  rcases h6 : (jsonGet ep ("character")).bind asU64 with _ | ec
  · simp [h6] at h
  simp only [h6] at h
  rcases h7 : positionToOffset text sl sc with e1 | so
  · simp only [h7] at h
    simp at h
    rcases positionToOffset_err_shape text sl sc e1 h7 with ⟨s, hs⟩
    rw [h] at hs
    cases hs
  simp only [h7] at h
  rcases h8 : positionToOffset text el ec with e2 | eo
  · simp only [h8] at h
    simp at h
    rcases positionToOffset_err_shape text el ec e2 h8 with ⟨s, hs⟩
    rw [h] at hs
    cases hs
  simp only [h8] at h
  by_cases hord : eo < so
  · rw [if_pos hord] at h
    simp at h
  rw [if_neg hord] at h
  rcases h9 : replaceRangeChecked text so eo newText with _ | t2
  · rcases positionToOffset_ok_boundary text sl sc so h7 with ⟨_, k1, hk1⟩
    rcases positionToOffset_ok_boundary text el ec eo h8 with ⟨_, k2, hk2⟩
    subst hk1
    subst hk2
    have hsome := replaceRangeChecked_isSome text newText k1 k2 (by omega)
    rw [h9] at hsome
    cases hsome
  · simp [h9] at h

/-! ## Claim C7 -/

/-- C7 (counterexample): the claim states that whenever `line` equals the
number of lines of the text — one past the final newline — the function
returns `Ok` with the end-of-text offset, for every text.  For the text
"abc" (no newline at all, so the line count is 0 by newline count, or 1 by
content-line count) the code returns `Ok 0` at line 0 — not the end-of-text
offset 3 — and fails outright at line 1.  Either reading refutes the
universal claim. -/
theorem c7_counterexample :
    countNl (("abc").data) = 0
    ∧ positionToOffset (("abc").data) 0 0 = .ok 0
    ∧ exceptIsError (positionToOffset (("abc").data) 1 0) = true
    ∧ utf8Len (("abc").data) = 3
    ∧ (0 : Nat) ≠ 3 :=
  ⟨by decide, by decide, by decide, by decide, by decide⟩

/-- C7 (amended): for a text that is empty or ends with a newline,
`position_to_offset` at `line = countNl text` (one past the final newline)
treats the line as empty and returns `Ok` with the end-of-text byte offset
for every `character`; for any text, a line strictly beyond `countNl text`
fails with `InvalidMessage`. -/
theorem c7_line_one_past_final_newline :
    (∀ (text : List Char) (ch : Nat), text = [] ∨ endsWithNl text = true →
        positionToOffset text (countNl text) ch = .ok (utf8Len text))
    ∧ (∀ (text : List Char) (line ch : Nat), countNl text < line →
        exceptIsError (positionToOffset text line ch) = true) := by
  constructor
  · intro text ch h
    rcases h with rfl | hend
    · rfl
    · have := positionToOffsetGo_endNl text 0 0 0 [] (countNl text) ch hend (by omega)
      simpa [positionToOffset] using this
  · intro text line ch h
    exact positionToOffsetGo_err text 0 0 0 [] line ch (by omega)

/-- C7 (witness): concrete instances of the amended claim at the
newline-terminated text "ab\n". -/
theorem c7_line_one_past_final_newline_witness :
    positionToOffset (("ab\n").data) (countNl (("ab\n").data)) 7 = .ok (utf8Len (("ab\n").data))
    ∧ exceptIsError (positionToOffset (("ab\n").data) 2 0) = true :=
  ⟨c7_line_one_past_final_newline.1 (("ab\n").data) 7 (Or.inr (by decide)),
   c7_line_one_past_final_newline.2 (("ab\n").data) 2 0 (by decide)⟩

/-! ## Claim C8 -/

/-- C8: for every text, every line the function accepts
(`line ≤ countNl text`) and every `character` exceeding the line's UTF-16
length, `position_to_offset` clamps to end-of-line: it returns `Ok` with
the byte offset of the line's end (just before the terminating newline, or
the end of the text for the final line) — that offset is
`lineStartByte text line + utf8Len (lineChars text line)`. -/
theorem c8_character_clamps_to_line_end :
    ∀ (text : List Char) (line ch : Nat), line ≤ countNl text →
      utf16Len (lineChars text line) < ch →
      positionToOffset text line ch =
        .ok (lineStartByte text line + utf8Len (lineChars text line)) := by
  intro text line ch hline hch
  unfold positionToOffset
  cases Nat.eq_zero_or_pos line with
  | inl h0 =>
    subst h0
    rw [positionToOffsetGo_target text 0 0 [] 0 ch (by rw [utf16Len_nil]; omega)]
    rw [lineStartByte_zero]
  | inr hpos =>
    have := positionToOffsetGo_skip text line 0 0 0 [] line ch (by omega) hpos hline hch
    simpa using this

/-- C8 (witness): clamping `character = 100` on line 1 of
"hello\nworld" yields the end of the text (offset 11). -/
theorem c8_character_clamps_to_line_end_witness :
    positionToOffset (("hello\nworld").data) 1 100 =
      .ok (lineStartByte (("hello\nworld").data) 1 + utf8Len (lineChars (("hello\nworld").data) 1))
    ∧ lineStartByte (("hello\nworld").data) 1 + utf8Len (lineChars (("hello\nworld").data) 1) = 11 :=
  ⟨c8_character_clamps_to_line_end (("hello\nworld").data) 1 100 (by decide) (by decide),
   by decide⟩

/-! ## Claim C9 -/

/-- C9: `apply_incremental_change` is atomic on error — whenever it
returns `Err` (missing `start`/`end`, missing or non-integer
`line`/`character`, out-of-range line, or inverted offsets), the text it
was given is left unchanged. -/
theorem c9_error_is_atomic :
    ∀ (text : List Char) (range : Json) (newText : List Char) (e : ProxyError),
      (applyIncrementalChangeMut text range newText).1 = .error e →
      (applyIncrementalChangeMut text range newText).2 = text := by
  intro text range newText e h
  rcases applyIncrementalChangeMut_cases text range newText with hok | hsame
  · rw [hok] at h; cases h
  · exact hsame

/-- C9 (witness): a range without a `start` field errors and leaves the
text unchanged. -/
theorem c9_error_is_atomic_witness :
    (applyIncrementalChangeMut (("abc").data) (Json.obj []) []).2 = ("abc").data :=
  c9_error_is_atomic (("abc").data) (Json.obj []) []
    (.invalidMessage ("didChange range missing start")) (by decide)

/-! ## Claim C10 -/

/-- C10: every `Ok` offset of `position_to_offset` is at most the byte
length of the text and lies on a UTF-8 character boundary (it is the byte
length of a `take`-prefix); consequently `replace_range` inside
`apply_incremental_change` never panics — the panic marker
`replaceRangeViolation` is unreachable. -/
theorem c10_offsets_are_safe :
    (∀ (text : List Char) (line ch off : Nat), positionToOffset text line ch = .ok off →
        off ≤ utf8Len text ∧ ∃ k, off = utf8Len (text.take k))
    ∧ (∀ (text : List Char) (range : Json) (newText : List Char),
        applyIncrementalChange text range newText ≠ .error .replaceRangeViolation) :=
  ⟨positionToOffset_ok_boundary, applyIncrementalChange_no_panic⟩

/-- C10 (witness): the offset for position (0,3) in "a😀b" — 5, inside a
text of 6 bytes — is a boundary offset, and a concrete edit does not hit
the panic marker. -/
theorem c10_offsets_are_safe_witness :
    ((5 : Nat) ≤ utf8Len (("a😀b").data))
    ∧ applyIncrementalChange (("abc").data) (Json.obj []) [] ≠ .error .replaceRangeViolation :=
  ⟨(c10_offsets_are_safe.1 (("a😀b").data) 0 3 5 (by decide)).1,
   c10_offsets_are_safe.2 (("abc").data) (Json.obj []) []⟩

/-! ## Association-list lemmas for the pooled state -/

theorem assocLookup_mem {α : Type _} :
    ∀ (l : List (String × α)) (k : String) (v : α), assocLookup l k = some v → (k, v) ∈ l := by
  intro l
  induction l with
  | nil => intro k v h; cases h
  | cons e rest ih =>
    intro k v h
    rw [show assocLookup (e :: rest) k = if e.1 == k then some e.2 else assocLookup rest k
      from rfl] at h
    by_cases he : e.1 == k
    · rw [if_pos he] at h
      injection h with h2
      have hk : e.1 = k := by simpa using he
      refine List.mem_cons.mpr (Or.inl ?_)
      cases e
      simp_all
    · rw [if_neg he] at h
      exact List.mem_cons_of_mem _ (ih k v h)

theorem reqLookup_none_iff {α : Type _} :
    ∀ (t : List (RpcId × α)) (id : RpcId), reqLookup t id = none ↔ ∀ e ∈ t, e.1 ≠ id := by
  intro t
  induction t with
  | nil => intro id; simp [reqLookup]
  | cons e rest ih =>
    intro id
    rw [show reqLookup (e :: rest) id = if e.1 == id then some e.2 else reqLookup rest id
      from rfl]
    by_cases he : e.1 == id
    · rw [if_pos he]
      simp only [List.mem_cons]
      constructor
      · intro h; cases h
      · intro h
        exact absurd (by simpa using he) (h e (Or.inl rfl))
    · rw [if_neg he]
      rw [ih]
      simp only [List.mem_cons]
      constructor
      · intro h e2 hmem
        rcases hmem with rfl | hmem2
        · simpa using he
        · exact h e2 hmem2
      · intro h e2 hmem2
        exact h e2 (Or.inr hmem2)

theorem reqRemove_lookup_self {α : Type _} (t : List (RpcId × α)) (id : RpcId) :
    reqLookup (reqRemove t id) id = none := by
  rw [reqLookup_none_iff]
  intro e hmem
  have := (List.mem_filter.mp hmem).2
  simpa using this

theorem reqRemove_preserves_none {α : Type _} (t : List (RpcId × α)) (i j : RpcId)
    (h : reqLookup t j = none) : reqLookup (reqRemove t i) j = none := by
  rw [reqLookup_none_iff] at h ⊢
  intro e hmem
  exact h e (List.mem_filter.mp hmem).1

theorem foldl_reqRemove_preserves_none {α : Type _} :
    ∀ (ids : List RpcId) (t : List (RpcId × α)) (j : RpcId),
      reqLookup t j = none → reqLookup (ids.foldl reqRemove t) j = none := by
  intro ids
  induction ids with
  | nil => intro t j h; simpa using h
  | cons i rest ih =>
    intro t j h
    rw [List.foldl_cons]
    exact ih _ _ (reqRemove_preserves_none t i j h)

theorem foldl_reqRemove_none {α : Type _} :
    ∀ (ids : List RpcId) (t : List (RpcId × α)) (id : RpcId),
      id ∈ ids → reqLookup (ids.foldl reqRemove t) id = none := by
  intro ids
  induction ids with
  | nil => intro t id h; cases h
  | cons i rest ih =>
    intro t id hmem
    rw [List.foldl_cons]
    rcases List.mem_cons.mp hmem with rfl | hmem2
    · exact foldl_reqRemove_preserves_none rest _ id (reqRemove_lookup_self t id)
    · exact ih _ _ hmem2

theorem reqRemove_absent {α : Type _} (t : List (RpcId × α)) (i : RpcId)
    (h : reqLookup t i = none) : reqRemove t i = t := by
  rw [reqLookup_none_iff] at h
  apply List.filter_eq_self.mpr
  intro e hmem
  simpa using h e hmem

/-! ## `cancel_pending_requests_for_backend` -/

/-- Every pending entry tied to the given backend is removed and receives
a synthetic cancellation response. -/
theorem cancelPending_spec (pending : List (RpcId × PendingRequest)) (venvPath : String)
    (session : Nat) (id : RpcId) (p : PendingRequest)
    (hmem : (id, p) ∈ pending) (hv : p.venvPath = venvPath) (hs : p.backendSession = session) :
    reqLookup (cancelPendingRequestsForBackend pending venvPath session).1 id = none
    ∧ cancelResponse id ∈ (cancelPendingRequestsForBackend pending venvPath session).2 := by
  have hidmem : id ∈ (pending.filter
      (fun e => e.2.venvPath == venvPath && e.2.backendSession == session)).map
      (fun e => e.1) := by
    refine List.mem_map.mpr ⟨(id, p), ?_, rfl⟩
    refine List.mem_filter.mpr ⟨hmem, ?_⟩
    simp [hv, hs]
  exact ⟨foldl_reqRemove_none _ _ _ hidmem, List.mem_map_of_mem _ hidmem⟩

/-- Cancellation writes carry no method (they are responses). -/
theorem cancelPending_writes_responses (pending : List (RpcId × PendingRequest))
    (venvPath : String) (session : Nat) :
    ∀ m ∈ (cancelPendingRequestsForBackend pending venvPath session).2, m.method = none := by
  intro m hmem
  rcases List.mem_map.mp hmem with ⟨i, _, rfl⟩
  rfl

/-! ## Teardown equations -/

/-- Crash handling of a live backend (the session check passes). -/
theorem handleBackendCrash_live (st : PoolState) (venvPath : String) (inst : BackendInstance)
    (h : poolLookup st.pool venvPath = some inst) :
    handleBackendCrash st venvPath inst.session =
      { state := { st with
          pool := poolRemove st.pool venvPath
          pendingRequests :=
            (cancelPendingRequestsForBackend st.pendingRequests venvPath inst.session).1
          pendingBackendRequests :=
            cleanPendingBackendRequests st.pendingBackendRequests venvPath inst.session }
        writes := (cancelPendingRequestsForBackend st.pendingRequests venvPath inst.session).2
        readerAborted := true
        shutdownAttempted := false } := by
  unfold handleBackendCrash
  rw [h]
  simp

/-- Eviction of a present backend. -/
theorem evictBackendVenv_found (st : PoolState) (venvPath : String) (inst : BackendInstance)
    (h : poolLookup st.pool venvPath = some inst) :
    evictBackendVenv st venvPath =
      { state := { st with
          pool := poolRemove st.pool venvPath
          pendingRequests :=
            (cancelPendingRequestsForBackend st.pendingRequests venvPath inst.session).1
          pendingBackendRequests :=
            cleanPendingBackendRequests st.pendingBackendRequests venvPath inst.session }
        writes := (cancelPendingRequestsForBackend st.pendingRequests venvPath inst.session).2
          ++ clearDiagnosticsForVenv st.openDocuments venvPath
        readerAborted := true
        shutdownAttempted := true } := by
  unfold evictBackendVenv
  rw [h]

/-! ## Pool transformations preserve keys and sessions -/

theorem poolWeaklySub_refl (p : List (String × BackendInstance)) : poolWeaklySub p p :=
  fun e he => ⟨e, he, rfl, rfl⟩

theorem poolRemove_sub (pool : List (String × BackendInstance)) (v : String) :
    poolWeaklySub (poolRemove pool v) pool :=
  fun e he => ⟨e, (List.mem_filter.mp he).1, rfl, rfl⟩

theorem poolMarkReady_sub (pool : List (String × BackendInstance)) (v : String) :
    poolWeaklySub (poolMarkReady pool v) pool := by
  intro e he
  rcases List.mem_map.mp he with ⟨e0, he0, heq⟩
  refine ⟨e0, he0, ?_⟩
  by_cases hk : e0.1 == v
  · rw [if_pos hk] at heq
    subst heq
    exact ⟨rfl, rfl⟩
  · rw [if_neg hk] at heq
    subst heq
    exact ⟨rfl, rfl⟩

theorem bounded_of_sub {p q : List (String × BackendInstance)} {bound : Nat}
    (hsub : poolWeaklySub p q) (hb : ∀ e ∈ q, e.2.session < bound) :
    ∀ e ∈ p, e.2.session < bound := by
  intro e he
  rcases hsub e he with ⟨e0, he0, _, hs⟩
  rw [hs]
  exact hb e0 he0

theorem deadEntries_of_sub {p q : List (String × BackendInstance)} {v : String} {s : Nat}
    (hsub : poolWeaklySub p q) (hd : ∀ e ∈ q, e.1 = v → e.2.session ≠ s) :
    ∀ e ∈ p, e.1 = v → e.2.session ≠ s := by
  intro e he hk
  rcases hsub e he with ⟨e0, he0, hkey, hs⟩
  rw [hs]
  exact hd e0 he0 (by rw [← hkey]; exact hk)

/-! ## Dispatch facts -/

/-- Stale records are dropped without any output or state change. -/
theorem dispatch_stale (st : PoolState) (venvPath : String) (session : Nat)
    (result : Except Unit RpcMessage) (h : isCurrentAt st venvPath session = false) :
    dispatchBackendMessage st venvPath session result =
      { state := st, clientWrites := [], backendWrites := [] } := by
  unfold dispatchBackendMessage
  rw [h]
  rfl

theorem isCurrentAt_false_of_dead (st : PoolState) (venvPath : String) (session : Nat)
    (hd : sessionDead st venvPath session) : isCurrentAt st venvPath session = false := by
  unfold isCurrentAt
  cases hl : poolLookup st.pool venvPath with
  | none => rfl
  | some inst =>
    have hmem := assocLookup_mem st.pool venvPath inst hl
    have hne := hd.2 (venvPath, inst) hmem rfl
    simpa using hne

theorem forwardTail_facts (st : PoolState) (venvPath : String) (m : RpcMessage) :
    (forwardTail st venvPath m).state.nextSession = st.nextSession
    ∧ poolWeaklySub (forwardTail st venvPath m).state.pool st.pool := by
  unfold forwardTail
  split
  · split
    · split
      · exact ⟨rfl, poolMarkReady_sub _ _⟩
      · exact ⟨rfl, poolWeaklySub_refl _⟩
    · exact ⟨rfl, poolWeaklySub_refl _⟩
  · exact ⟨rfl, poolWeaklySub_refl _⟩

theorem handleBackendCrash_facts (st : PoolState) (venvPath : String) (session : Nat) :
    (handleBackendCrash st venvPath session).state.nextSession = st.nextSession
    ∧ poolWeaklySub (handleBackendCrash st venvPath session).state.pool st.pool := by
  unfold handleBackendCrash
  split <;> dsimp only <;> split <;>
    first
    | exact ⟨rfl, poolRemove_sub _ _⟩
    | exact ⟨rfl, poolWeaklySub_refl _⟩

theorem evictBackendVenv_facts (st : PoolState) (venvPath : String) :
    (evictBackendVenv st venvPath).state.nextSession = st.nextSession
    ∧ poolWeaklySub (evictBackendVenv st venvPath).state.pool st.pool := by
  unfold evictBackendVenv
  cases hl : poolLookup st.pool venvPath with
  | none => exact ⟨rfl, poolWeaklySub_refl _⟩
  | some inst => exact ⟨rfl, poolRemove_sub _ _⟩

theorem dispatch_facts (st : PoolState) (venvPath : String) (session : Nat)
    (result : Except Unit RpcMessage) :
    (dispatchBackendMessage st venvPath session result).state.nextSession = st.nextSession
    ∧ poolWeaklySub (dispatchBackendMessage st venvPath session result).state.pool st.pool := by
  unfold dispatchBackendMessage
  split
  · exact ⟨rfl, poolWeaklySub_refl _⟩
  · split
    · exact handleBackendCrash_facts st venvPath session
    · split
      · split
        · exact ⟨rfl, poolWeaklySub_refl _⟩
        · exact ⟨rfl, poolWeaklySub_refl _⟩
      · split
        · split
          · split
            · split
              · exact ⟨rfl, poolWeaklySub_refl _⟩
              · exact forwardTail_facts _ venvPath _
            · exact forwardTail_facts _ venvPath _
          · exact forwardTail_facts st venvPath _
        · exact forwardTail_facts st venvPath _

/-! ## Invariant preservation along event runs -/

theorem spawnBackend_preserves (st : PoolState) (v2 venvPath : String) (session : Nat)
    (hb : poolSessionsBounded st) (hd : sessionDead st venvPath session) :
    poolSessionsBounded (spawnBackend st v2) ∧ sessionDead (spawnBackend st v2) venvPath session := by
  constructor
  · intro e he
    rcases List.mem_cons.mp he with rfl | he2
    · simp [spawnBackend]
    · have := hb e (List.mem_filter.mp he2).1
      simp [spawnBackend]
      omega
  · constructor
    · have := hd.1
      simp [spawnBackend]
      omega
    · intro e he hk
      rcases List.mem_cons.mp he with rfl | he2
      · have := hd.1
        simp
        omega
      · exact hd.2 e (List.mem_filter.mp he2).1 hk

theorem applyEvent_preserves (st : PoolState) (ev : ProxyEvent) (venvPath : String)
    (session : Nat) (hb : poolSessionsBounded st) (hd : sessionDead st venvPath session) :
    poolSessionsBounded (applyEvent st ev).1 ∧ sessionDead (applyEvent st ev).1 venvPath session := by
  cases ev with
  | spawn v2 => exact spawnBackend_preserves st v2 venvPath session hb hd
  | evictVenv v2 =>
    have hf := evictBackendVenv_facts st v2
    constructor
    · intro e he
      rw [show (applyEvent st (.evictVenv v2)).1 = (evictBackendVenv st v2).state from rfl] at he
      have := bounded_of_sub hf.2 hb e he
      rw [show (applyEvent st (.evictVenv v2)).1 = (evictBackendVenv st v2).state from rfl]
      rw [hf.1]
      exact this
    · constructor
      · rw [show (applyEvent st (.evictVenv v2)).1 = (evictBackendVenv st v2).state from rfl,
          hf.1]
        exact hd.1
      · exact deadEntries_of_sub hf.2 hd.2
  | backendRecord v2 s2 res =>
    have hf := dispatch_facts st v2 s2 res
    constructor
    · intro e he
      have := bounded_of_sub hf.2 hb e he
      rw [show (applyEvent st (.backendRecord v2 s2 res)).1 =
        (dispatchBackendMessage st v2 s2 res).state from rfl, hf.1]
      exact this
    · constructor
      · rw [show (applyEvent st (.backendRecord v2 s2 res)).1 =
          (dispatchBackendMessage st v2 s2 res).state from rfl, hf.1]
        exact hd.1
      · exact deadEntries_of_sub hf.2 hd.2

/-- Once `(venvPath, session)` is dead, no later event run forwards a
client message tagged with it. -/
theorem runEvents_noTag :
    ∀ (evs : List ProxyEvent) (st : PoolState) (venvPath : String) (session : Nat),
      poolSessionsBounded st → sessionDead st venvPath session →
      ∀ p m, (p, m) ∈ (runEvents st evs).2 → p ≠ some (venvPath, session) := by
  intro evs
  induction evs with
  | nil =>
    intro st venvPath session _ _ p m hmem
    simp [runEvents] at hmem
  | cons e es ih =>
    intro st venvPath session hb hd p m hmem
    have hmem2 : (p, m) ∈ (applyEvent st e).2 ++ (runEvents (applyEvent st e).1 es).2 := hmem
    rcases List.mem_append.mp hmem2 with h1 | h2
    · cases e with
      | spawn v2 => simp [applyEvent] at h1
      | evictVenv v2 =>
        rcases List.mem_map.mp h1 with ⟨w, _, heq⟩
        intro hcontra
        rw [hcontra] at heq
        cases heq
      | backendRecord v2 s2 res =>
        by_cases hvs : v2 = venvPath ∧ s2 = session
        · obtain ⟨rfl, rfl⟩ := hvs
          rw [show (applyEvent st (.backendRecord v2 s2 res)).2 =
            (dispatchBackendMessage st v2 s2 res).clientWrites.map
              (fun w => (some (v2, s2), w)) from rfl] at h1
          rw [dispatch_stale st v2 s2 res (isCurrentAt_false_of_dead st v2 s2 hd)] at h1
          simp at h1
        · rcases List.mem_map.mp h1 with ⟨w, _, heq⟩
          intro hcontra
          rw [hcontra] at heq
          have := congrArg Prod.fst heq
          simp at this
          exact hvs ⟨this.1, this.2⟩
    · have hp := applyEvent_preserves st e venvPath session hb hd
      exact ih (applyEvent st e).1 venvPath session hp.1 hp.2 p m h2

/-- Eviction and crash of a live backend leave `(venvPath, session)` dead
and preserve the session bound. -/
theorem teardown_dead (st : PoolState) (venvPath : String) (inst : BackendInstance)
    (hb : poolSessionsBounded st) (hl : poolLookup st.pool venvPath = some inst) :
    (poolSessionsBounded (evictBackendVenv st venvPath).state
      ∧ sessionDead (evictBackendVenv st venvPath).state venvPath inst.session)
    ∧ (poolSessionsBounded (handleBackendCrash st venvPath inst.session).state
      ∧ sessionDead (handleBackendCrash st venvPath inst.session).state venvPath inst.session) := by
  have hsess : inst.session < st.nextSession := hb (venvPath, inst) (assocLookup_mem _ _ _ hl)
  have hremove : ∀ e ∈ poolRemove st.pool venvPath, e.1 = venvPath → e.2.session ≠ inst.session := by
    intro e he hk
    have := (List.mem_filter.mp he).2
    simp [hk] at this
  constructor
  · rw [evictBackendVenv_found st venvPath inst hl]
    refine ⟨?_, hsess, hremove⟩
    exact bounded_of_sub (poolRemove_sub _ _) hb
  · rw [handleBackendCrash_live st venvPath inst hl]
    refine ⟨?_, hsess, hremove⟩
    exact bounded_of_sub (poolRemove_sub _ _) hb

/-! ## Claim C2 -/

/-- C2: a record received on the backend channel whose `(env, session)`
tag does not match the pool's current entry (absent, or different session)
is dropped: no state change and nothing is forwarded to the client.
Consequently, after eviction or crash of a live backend `(env, session)`,
no client write tagged `(env, session)` is ever produced by any later run
of events (sessions are allocated by the monotonic counter, so the dead
pair can never become current again). -/
theorem c2_stale_messages_dropped :
    (∀ (st : PoolState) (venvPath : String) (session : Nat) (result : Except Unit RpcMessage),
        isCurrentAt st venvPath session = false →
        dispatchBackendMessage st venvPath session result =
          { state := st, clientWrites := [], backendWrites := [] })
    ∧ (∀ (st : PoolState) (venvPath : String) (inst : BackendInstance)
        (evs : List ProxyEvent) (p : Option (String × Nat)) (m : RpcMessage),
        poolSessionsBounded st → poolLookup st.pool venvPath = some inst →
        ((p, m) ∈ (runEvents (evictBackendVenv st venvPath).state evs).2 →
          p ≠ some (venvPath, inst.session))
        ∧ ((p, m) ∈ (runEvents (handleBackendCrash st venvPath inst.session).state evs).2 →
          p ≠ some (venvPath, inst.session))) := by
  constructor
  · exact dispatch_stale
  · intro st venvPath inst evs p m hb hl
    have htd := teardown_dead st venvPath inst hb hl
    exact ⟨runEvents_noTag evs _ venvPath inst.session htd.1.1 htd.1.2 p m,
           runEvents_noTag evs _ venvPath inst.session htd.2.1 htd.2.2 p m⟩

/-- C2 (witness): a record with a stale session 2 against the live
session 1 is dropped, and after evicting ("v", 1) a replayed record tagged
("v", 1) produces no tagged client write. -/
theorem c2_stale_messages_dropped_witness :
    dispatchBackendMessage wState ("v") 2 (.ok wMsg) =
      { state := wState, clientWrites := [], backendWrites := [] }
    ∧ (some ((("v") : String), 1), wMsg) ∉
        (runEvents (evictBackendVenv wState ("v")).state
          [ProxyEvent.backendRecord ("v") 1 (.ok wMsg)]).2 := by
  constructor
  · exact c2_stale_messages_dropped.1 wState ("v") 2 (.ok wMsg) rfl
  · intro hmem
    exact (c2_stale_messages_dropped.2 wState ("v") wInst
      [ProxyEvent.backendRecord ("v") 1 (.ok wMsg)] (some (("v"), 1)) wMsg
      (by unfold poolSessionsBounded; decide) rfl).1 hmem rfl

/-! ## Claim C3 -/

/-- C3: whenever a backend at `(env, session)` is evicted or crashes, each
pending client→backend entry tied to `(env, session)` is removed from the
table and a response with that entry's id, `error.code = -32800` and
`error.message = "Request cancelled due to backend eviction"` is written
to the client. -/
theorem c3_teardown_cancels_pending :
    ∀ (st : PoolState) (venvPath : String) (inst : BackendInstance) (id : RpcId)
      (p : PendingRequest),
      poolLookup st.pool venvPath = some inst →
      (id, p) ∈ st.pendingRequests → p.venvPath = venvPath → p.backendSession = inst.session →
      (cancelResponse id).error =
        some { code := -32800, message := "Request cancelled due to backend eviction",
               data := none }
      ∧ (reqLookup (evictBackendVenv st venvPath).state.pendingRequests id = none
        ∧ cancelResponse id ∈ (evictBackendVenv st venvPath).writes)
      ∧ (reqLookup (handleBackendCrash st venvPath inst.session).state.pendingRequests id = none
        ∧ cancelResponse id ∈ (handleBackendCrash st venvPath inst.session).writes) := by
  intro st venvPath inst id p hl hmem hv hs
  have hc := cancelPending_spec st.pendingRequests venvPath inst.session id p hmem hv hs
  refine ⟨rfl, ?_, ?_⟩
  · rw [evictBackendVenv_found st venvPath inst hl]
    exact ⟨hc.1, List.mem_append_left _ hc.2⟩
  · rw [handleBackendCrash_live st venvPath inst hl]
    exact ⟨hc.1, hc.2⟩

/-- C3 (witness): crashing ("v", 1) cancels the pending request with id 4. -/
theorem c3_teardown_cancels_pending_witness :
    reqLookup (handleBackendCrash c3State ("v") 1).state.pendingRequests (RpcId.num 4) = none
    ∧ cancelResponse (RpcId.num 4) ∈ (handleBackendCrash c3State ("v") 1).writes :=
  (c3_teardown_cancels_pending c3State ("v") wInst (RpcId.num 4) wPending rfl
    (List.Mem.head _) rfl rfl).2.2

/-! ## Claim C4 -/

/-- C4 (counterexample): the crash handler does not emit cleared
diagnostics.  In a state with one live backend ("v", 1) and one cached
document under environment "v", crashing ("v", 1) produces no client
writes at all, while evicting the same backend emits the empty
`textDocument/publishDiagnostics` notification the claim requires for the
crash path as well. -/
theorem c4_counterexample :
    (handleBackendCrash c4State ("v") 1).writes = []
    ∧ poolLookup c4State.pool ("v") = some wInst
    ∧ assocLookup c4State.openDocuments ("file:///x.py") = some wDoc
    ∧ wDoc.venv = some ("v")
    ∧ (evictBackendVenv c4State ("v")).writes = [publishDiagnosticsClear ("file:///x.py")] :=
  ⟨rfl, rfl, rfl, rfl, rfl⟩

/-- C4 (amended): crash handling performs the same state transition as
eviction — removing the pool entry, cancelling the pending
client→backend requests with -32800, dropping the pending backend→client
requests without forwarding — and aborts the reader task, but attempts no
graceful shutdown and, unlike eviction, emits no cleared-diagnostics
notifications: its writes are exactly the cancellation responses, and
eviction's writes are those plus the diagnostics clears. -/
theorem c4_crash_is_eviction_minus_shutdown_and_diagnostics :
    ∀ (st : PoolState) (venvPath : String) (inst : BackendInstance),
      poolLookup st.pool venvPath = some inst →
      (handleBackendCrash st venvPath inst.session).state =
        (evictBackendVenv st venvPath).state
      ∧ (evictBackendVenv st venvPath).writes =
          (handleBackendCrash st venvPath inst.session).writes
            ++ clearDiagnosticsForVenv st.openDocuments venvPath
      ∧ (handleBackendCrash st venvPath inst.session).writes =
          (cancelPendingRequestsForBackend st.pendingRequests venvPath inst.session).2
      ∧ (handleBackendCrash st venvPath inst.session).state.pool = poolRemove st.pool venvPath
      ∧ (handleBackendCrash st venvPath inst.session).state.pendingBackendRequests =
          cleanPendingBackendRequests st.pendingBackendRequests venvPath inst.session
      ∧ (handleBackendCrash st venvPath inst.session).readerAborted = true
      ∧ (handleBackendCrash st venvPath inst.session).shutdownAttempted = false
      ∧ (evictBackendVenv st venvPath).shutdownAttempted = true
      ∧ (∀ w ∈ (handleBackendCrash st venvPath inst.session).writes, w.method = none) := by
  intro st venvPath inst hl
  rw [handleBackendCrash_live st venvPath inst hl, evictBackendVenv_found st venvPath inst hl]
  exact ⟨rfl, rfl, rfl, rfl, rfl, rfl, rfl, rfl, cancelPending_writes_responses _ _ _⟩

/-- C4 (witness): on a state with a pending request, crash and eviction
reach the same state, and the crash attempts no shutdown. -/
theorem c4_crash_is_eviction_minus_shutdown_and_diagnostics_witness :
    (handleBackendCrash c3State ("v") 1).state = (evictBackendVenv c3State ("v")).state
    ∧ (handleBackendCrash c3State ("v") 1).shutdownAttempted = false :=
  ⟨(c4_crash_is_eviction_minus_shutdown_and_diagnostics c3State ("v") wInst rfl).1,
   (c4_crash_is_eviction_minus_shutdown_and_diagnostics c3State ("v") wInst rfl).2.2.2.2.2.2.1⟩

/-! ## Claim C5 -/

/-- For a message without method (a response), the forward tail is a plain
forward: the `$/progress` branch cannot trigger. -/
theorem forwardTail_response (st : PoolState) (venvPath : String) (m : RpcMessage)
    (hm : m.method = none) :
    forwardTail st venvPath m = { state := st, clientWrites := [m], backendWrites := [] } := by
  unfold forwardTail
  have hn : m.isNotification = false := by simp [RpcMessage.isNotification, hm]
  rw [hn]
  rfl

/-- C5 (counterexample): a response whose id is in neither pending table
is forwarded to the client unchanged.  In a state with a live backend
("v", 1) and empty pending tables, the response with id 7 is forwarded,
refuting the claim that no response with an id unknown to both tables is
forwarded. -/
theorem c5_counterexample :
    (dispatchBackendMessage wState ("v") 1 (.ok respUnknown)).clientWrites = [respUnknown]
    ∧ respUnknown.id = some (RpcId.num 7)
    ∧ respUnknown.method = none
    ∧ reqLookup wState.pendingRequests (RpcId.num 7) = none
    ∧ reqLookup wState.pendingBackendRequests (RpcId.num 7) = none :=
  ⟨rfl, rfl, rfl, rfl, rfl⟩

/-- C5 (amended): for every response the backend dispatch forwards to the
client (id set, method absent, from the current session), either its id
has a pending client→backend entry whose `(env, session)` tag matches —
the entry is removed at the moment of forwarding — or the id has no entry
in the pending client→backend table and the response is forwarded
unchanged with the table untouched; a pending entry with a mismatched tag
causes the response to be dropped (entry removed, nothing forwarded).
The pending backend→client table is not consulted in this direction. -/
theorem c5_response_forwarding :
    ∀ (st : PoolState) (venvPath : String) (session : Nat) (m : RpcMessage) (i : RpcId),
      isCurrentAt st venvPath session = true → m.method = none → m.id = some i →
      (∀ p, reqLookup st.pendingRequests i = some p →
        p.venvPath = venvPath → p.backendSession = session →
        (dispatchBackendMessage st venvPath session (.ok m)).clientWrites = [m]
        ∧ reqLookup (dispatchBackendMessage st venvPath session (.ok m)).state.pendingRequests i
            = none)
      ∧ (∀ p, reqLookup st.pendingRequests i = some p →
        ¬(p.venvPath = venvPath ∧ p.backendSession = session) →
        (dispatchBackendMessage st venvPath session (.ok m)).clientWrites = []
        ∧ reqLookup (dispatchBackendMessage st venvPath session (.ok m)).state.pendingRequests i
            = none)
      ∧ (reqLookup st.pendingRequests i = none →
        (dispatchBackendMessage st venvPath session (.ok m)).clientWrites = [m]
        ∧ (dispatchBackendMessage st venvPath session (.ok m)).state.pendingRequests
            = st.pendingRequests) := by
  intro st venvPath session m i hcur hm hid
  have hreq : m.isRequest = false := by simp [RpcMessage.isRequest, hm]
  have hresp : m.isResponse = true := by simp [RpcMessage.isResponse, hm, hid]
  refine ⟨?_, ?_, ?_⟩
  · intro p hlook hpv hps
    have heq : dispatchBackendMessage st venvPath session (.ok m) =
        forwardTail { st with pendingRequests := reqRemove st.pendingRequests i } venvPath m := by
      unfold dispatchBackendMessage
      simp [hcur, hreq, hresp, hid, hlook, hpv, hps]
    rw [heq, forwardTail_response _ _ _ hm]
    exact ⟨rfl, reqRemove_lookup_self _ _⟩
  · intro p hlook hne
    have hcond : (p.backendSession != session || p.venvPath != venvPath) = true := by
      simp only [Bool.or_eq_true, bne_iff_ne, ne_eq]
      tauto
    have heq : dispatchBackendMessage st venvPath session (.ok m) =
        { state := { st with pendingRequests := reqRemove st.pendingRequests i }
          clientWrites := [], backendWrites := [] } := by
      unfold dispatchBackendMessage
      simp [hcur, hreq, hresp, hid, hlook, hcond]
    rw [heq]
    exact ⟨rfl, reqRemove_lookup_self _ _⟩
  · intro hlook
    have heq : dispatchBackendMessage st venvPath session (.ok m) =
        forwardTail { st with pendingRequests := reqRemove st.pendingRequests i } venvPath m := by
      unfold dispatchBackendMessage
      simp [hcur, hreq, hresp, hid, hlook]
    rw [heq, forwardTail_response _ _ _ hm]
    refine ⟨rfl, ?_⟩
    exact congrArg PoolState.pendingRequests
      (congrArg (fun t => { st with pendingRequests := t }) (reqRemove_absent _ _ hlook))

/-- C5 (witness): with the pending entry (4 ↦ ("v", 1)) and a matching
response with id 4, the response is forwarded and the entry removed. -/
theorem c5_response_forwarding_witness :
    (dispatchBackendMessage c3State ("v") 1
      (.ok { respUnknown with id := some (RpcId.num 4) })).clientWrites =
        [{ respUnknown with id := some (RpcId.num 4) }]
    ∧ reqLookup (dispatchBackendMessage c3State ("v") 1
        (.ok { respUnknown with id := some (RpcId.num 4) })).state.pendingRequests
        (RpcId.num 4) = none :=
  (c5_response_forwarding c3State ("v") 1 { respUnknown with id := some (RpcId.num 4) }
    (RpcId.num 4) rfl rfl rfl).1 wPending rfl rfl rfl

/-! ## Claim C1 -/

/-- C1 (counterexample): `handle_did_change` never applies an incremental
range edit.  For a change item WITH a range (replace characters 0-5 of
"hello world" with "hi"), the text-edit engine yields "hi world", but the
handler replaces the whole cached text with the item's `text`, yielding
"hi". -/
theorem c1_counterexample :
    handleDidChange c1Docs c1Msg =
      [(("file:///a.py"), { languageId := "python", version := 2, text := "hi" })]
    ∧ applyIncrementalChange (("hello world").data) c1Range (("hi").data) =
        .ok (("hi world").data)
    ∧ (("hi") : String) ≠ "hi world" :=
  ⟨rfl, by decide, by decide⟩

/-- C1 (amended): for every well-shaped `textDocument/didChange`
notification whose document is cached and whose declared version is an
integer, the handler replaces the cached text with the LAST change item's
`text` wholesale — ignoring any `range` (full-sync assumption) — and sets
the version to the declared version cast to i32. -/
theorem c1_did_change_full_sync :
    ∀ (docs : List (String × OpenDocument)) (msg : RpcMessage)
      (params textDocument cc lastChange : Json) (changes : List Json)
      (uriStr newText : String) (ver : Int) (doc : OpenDocument),
      msg.params = some params →
      jsonGet params ("textDocument") = some textDocument →
      (jsonGet textDocument ("uri")).bind asStr = some uriStr →
      (jsonGet textDocument ("version")).bind asI64 = some ver →
      jsonGet params ("contentChanges") = some cc →
      asArr cc = some changes →
      changes ≠ [] →
      changes.getLast? = some lastChange →
      (jsonGet lastChange ("text")).bind asStr = some newText →
      assocLookup docs uriStr = some doc →
      handleDidChange docs msg =
        updateDocs docs uriStr { doc with text := newText, version := i64ToI32 ver } := by
  intro docs msg params textDocument cc lastChange changes uriStr newText ver doc
  intro h1 h2 h3 h4 h5 h6 hne h8 h9 h10
  have hempty : changes.isEmpty = false := by
    cases changes with
    | nil => exact absurd rfl hne
    | cons a l => rfl
  unfold handleDidChange
  simp only [h1, h2, h3, h4, h5, h6, hempty, h8, h9, h10, Bool.false_eq_true, if_false]
  rfl

/-- C1 (witness): the amended claim applied to the ranged-change fixture. -/
theorem c1_did_change_full_sync_witness :
    handleDidChange c1Docs c1Msg =
      updateDocs c1Docs ("file:///a.py")
        { c1Doc with text := ("hi"), version := i64ToI32 2 } :=
  c1_did_change_full_sync c1Docs c1Msg _ _ _ _ _ _ _ _ _
    rfl rfl rfl rfl rfl rfl (List.cons_ne_nil _ _) rfl rfl rfl

/-! ## Decimal digit printing and parsing -/

theorem natDigitsAux_digits :
    ∀ (fuel n b : Nat), b ∈ natDigitsAux fuel n → 48 ≤ b ∧ b ≤ 57 := by
  intro fuel
  induction fuel with
  | zero =>
    intro n b hb
    simp [natDigitsAux] at hb
    omega
  | succ f ih =>
    intro n b hb
    by_cases h : n < 10
    · simp [natDigitsAux, h] at hb
      omega
    · simp [natDigitsAux, h] at hb
      rcases hb with hb | hb
      · exact ih _ _ hb
      · omega

theorem natDigitsAux_ne_nil (fuel n : Nat) : natDigitsAux fuel n ≠ [] := by
  cases fuel with
  | zero => simp [natDigitsAux]
  | succ f =>
    simp only [natDigitsAux]
    split
    · simp
    · simp

theorem parseDigitsLoop_natDigitsAux :
    ∀ (fuel n acc : Nat) (rest : List Nat), n ≤ fuel →
      parseDigitsLoop acc (natDigitsAux fuel n ++ rest) =
        parseDigitsLoop (acc * 10 ^ (natDigitsAux fuel n).length + n) rest := by
  intro fuel
  induction fuel with
  | zero =>
    intro n acc rest hn
    have h0 : n = 0 := by omega
    subst h0
    have hd : isDigitByte 48 = true := by simp [isDigitByte]
    simp [natDigitsAux, parseDigitsLoop, hd]
  | succ f ih =>
    intro n acc rest hn
    by_cases h : n < 10
    · have hd : isDigitByte (48 + n) = true := by simp [isDigitByte]; omega
      simp [natDigitsAux, h, parseDigitsLoop, hd]
    · have hrw : natDigitsAux (f + 1) n = natDigitsAux f (n / 10) ++ [48 + n % 10] := by
        simp [natDigitsAux, h]
      rw [hrw, List.append_assoc, ih (n / 10) acc ([48 + n % 10] ++ rest) (by omega)]
      have hd : isDigitByte (48 + n % 10) = true := by simp [isDigitByte]; omega
      simp only [List.singleton_append, parseDigitsLoop, hd, if_true]
      have hlen : (natDigitsAux f (n / 10) ++ [48 + n % 10]).length =
          (natDigitsAux f (n / 10)).length + 1 := by simp
      rw [hlen, pow_succ, ← mul_assoc]
      have hsub : acc * 10 ^ (natDigitsAux f (n / 10)).length * 10 =
          acc * 10 ^ (natDigitsAux f (n / 10)).length * 10 := rfl
      generalize acc * 10 ^ (natDigitsAux f (n / 10)).length = A
      congr 1
      omega

theorem parseDigitsLoop_stop (acc : Nat) (rest : List Nat) (h : headDigit rest = false) :
    parseDigitsLoop acc rest = (acc, rest) := by
  cases rest with
  | nil => rfl
  | cons b r =>
    have : isDigitByte b = false := by simpa [headDigit] using h
    simp [parseDigitsLoop, this]

theorem headDigit_natDigitsAux (fuel n : Nat) (rest : List Nat) :
    headDigit (natDigitsAux fuel n ++ rest) = true := by
  cases hnd : natDigitsAux fuel n with
  | nil => exact absurd hnd (natDigitsAux_ne_nil fuel n)
  | cons b l =>
    have hb : 48 ≤ b ∧ b ≤ 57 := natDigitsAux_digits fuel n b (by rw [hnd]; exact List.Mem.head _)
    simp [headDigit, isDigitByte]
    omega

theorem parseNumBytes_natDigits (n : Nat) (rest : List Nat) (h : headDigit rest = false) :
    parseNumBytes (natDigits n ++ rest) = some (n, rest) := by
  unfold natDigits
  cases hnd : natDigitsAux n n with
  | nil => exact absurd hnd (natDigitsAux_ne_nil n n)
  | cons b l =>
    have hb : 48 ≤ b ∧ b ≤ 57 := natDigitsAux_digits n n b (by rw [hnd]; exact List.Mem.head _)
    have hdig : isDigitByte b = true := by simp [isDigitByte]; omega
    have hpl := parseDigitsLoop_natDigitsAux n n 0 rest (le_refl n)
    rw [hnd] at hpl
    rw [show parseNumBytes (b :: l ++ rest) =
      if isDigitByte b then some (parseDigitsLoop 0 (b :: l ++ rest)) else none from rfl]
    rw [if_pos hdig, hpl, parseDigitsLoop_stop _ _ h]
    simp

/-! ## String escaping round trip -/

theorem hexVal_hexDigitByte (k : Nat) (h : k < 16) : hexVal (hexDigitByte k) = some k := by
  unfold hexDigitByte hexVal
  by_cases hk : k < 10
  · rw [if_pos hk, if_pos (by omega)]
    simp only [Option.some.injEq]
    omega
  · rw [if_neg hk, if_neg (by omega), if_pos (by omega)]
    simp only [Option.some.injEq]
    omega


theorem parseStringBody_utf8 (c : Char) (bs : List Nat)
    (h32 : 32 ≤ c.toNat) (h34 : c.toNat ≠ 34) (h92 : c.toNat ≠ 92) :
    parseStringBody (utf8EncodeScalar c.toNat ++ bs) =
      (parseStringBody bs).map (fun p => (c :: p.1, p.2)) := by
  have hval : c.toNat < 55296 ∨ (57343 < c.toNat ∧ c.toNat < 1114112) := c.valid
  set n := c.toNat with hn
  unfold utf8EncodeScalar
  by_cases h1 : n < 128
  · rw [if_pos h1]
    simp only [List.singleton_append]
    rw [parseStringBody]
    rw [if_neg h34, if_neg h92, if_neg (by omega : ¬ n < 32), if_pos h1, hn, Char.ofNat_toNat]
  · by_cases h2 : n < 2048
    · rw [if_neg h1, if_pos h2]
      simp only [List.cons_append, List.nil_append]
      rw [parseStringBody]
      rw [if_neg (by omega : ¬ 192 + n / 64 = 34), if_neg (by omega : ¬ 192 + n / 64 = 92),
        if_neg (by omega : ¬ 192 + n / 64 < 32), if_neg (by omega : ¬ 192 + n / 64 < 128),
        if_pos (by omega : 192 ≤ 192 + n / 64 ∧ 192 + n / 64 < 224)]
      rw [parseStringCont1]
      rw [if_pos (by omega : 128 ≤ 128 + n % 64 ∧ 128 + n % 64 < 192)]
      have harg : (192 + n / 64 - 192) * 64 + (128 + n % 64 - 128) = n := by omega
      rw [harg, hn, Char.ofNat_toNat]
    · by_cases h3 : n < 65536
      · rw [if_neg h1, if_neg h2, if_pos h3]
        simp only [List.cons_append, List.nil_append]
        rw [parseStringBody]
        rw [if_neg (by omega : ¬ 224 + n / 4096 = 34), if_neg (by omega : ¬ 224 + n / 4096 = 92),
          if_neg (by omega : ¬ 224 + n / 4096 < 32), if_neg (by omega : ¬ 224 + n / 4096 < 128),
          if_neg (by omega : ¬ (192 ≤ 224 + n / 4096 ∧ 224 + n / 4096 < 224)),
          if_pos (by omega : 224 ≤ 224 + n / 4096 ∧ 224 + n / 4096 < 240)]
        rw [parseStringCont2]
        rw [if_pos (by omega : (128 ≤ 128 + n / 64 % 64 ∧ 128 + n / 64 % 64 < 192) ∧
          (128 ≤ 128 + n % 64 ∧ 128 + n % 64 < 192))]
        have harg : (224 + n / 4096 - 224) * 4096 + (128 + n / 64 % 64 - 128) * 64
            + (128 + n % 64 - 128) = n := by omega
        rw [harg]
        rw [if_pos (by omega : n < 55296 ∨ 57344 ≤ n)]
        rw [hn, Char.ofNat_toNat]
      · rw [if_neg h1, if_neg h2, if_neg h3]
        simp only [List.cons_append, List.nil_append]
        rw [parseStringBody]
        rw [if_neg (by omega : ¬ 240 + n / 262144 = 34),
          if_neg (by omega : ¬ 240 + n / 262144 = 92),
          if_neg (by omega : ¬ 240 + n / 262144 < 32),
          if_neg (by omega : ¬ 240 + n / 262144 < 128),
          if_neg (by omega : ¬ (192 ≤ 240 + n / 262144 ∧ 240 + n / 262144 < 224)),
          if_neg (by omega : ¬ (224 ≤ 240 + n / 262144 ∧ 240 + n / 262144 < 240)),
          if_pos (by omega : 240 ≤ 240 + n / 262144 ∧ 240 + n / 262144 < 248)]
        rw [parseStringCont3]
        rw [if_pos (by omega : (128 ≤ 128 + n / 4096 % 64 ∧ 128 + n / 4096 % 64 < 192) ∧
          (128 ≤ 128 + n / 64 % 64 ∧ 128 + n / 64 % 64 < 192) ∧
          (128 ≤ 128 + n % 64 ∧ 128 + n % 64 < 192))]
        have harg : (240 + n / 262144 - 240) * 262144 + (128 + n / 4096 % 64 - 128) * 4096
            + (128 + n / 64 % 64 - 128) * 64 + (128 + n % 64 - 128) = n := by omega
        rw [harg]
        rw [if_pos (by omega : n < 1114112)]
        rw [hn, Char.ofNat_toNat]

theorem parseStringBody_escape (c : Char) (bs : List Nat) :
    parseStringBody (escapeCharBytes c ++ bs) =
      (parseStringBody bs).map (fun p => (c :: p.1, p.2)) := by
  by_cases h34 : c.toNat = 34
  · rw [escapeCharBytes, if_pos h34]
    simp [parseStringBody, parseStringEscape]
    rw [← h34, Char.ofNat_toNat]
  · by_cases h92 : c.toNat = 92
    · rw [escapeCharBytes, if_neg h34, if_pos h92]
      simp [parseStringBody, parseStringEscape]
      rw [← h92, Char.ofNat_toNat]
    · by_cases h8 : c.toNat = 8
      · rw [escapeCharBytes, if_neg h34, if_neg h92, if_pos h8]
        simp [parseStringBody, parseStringEscape]
        rw [← h8, Char.ofNat_toNat]
      · by_cases h9 : c.toNat = 9
        · rw [escapeCharBytes, if_neg h34, if_neg h92, if_neg h8, if_pos h9]
          simp [parseStringBody, parseStringEscape]
          rw [← h9, Char.ofNat_toNat]
        · by_cases h10 : c.toNat = 10
          · rw [escapeCharBytes, if_neg h34, if_neg h92, if_neg h8, if_neg h9, if_pos h10]
            simp [parseStringBody, parseStringEscape]
            rw [← h10, Char.ofNat_toNat]
          · by_cases h12 : c.toNat = 12
            · rw [escapeCharBytes, if_neg h34, if_neg h92, if_neg h8, if_neg h9, if_neg h10,
                if_pos h12]
              simp [parseStringBody, parseStringEscape]
              rw [← h12, Char.ofNat_toNat]
            · by_cases h13 : c.toNat = 13
              · rw [escapeCharBytes, if_neg h34, if_neg h92, if_neg h8, if_neg h9, if_neg h10,
                  if_neg h12, if_pos h13]
                simp [parseStringBody, parseStringEscape]
                rw [← h13, Char.ofNat_toNat]
              · by_cases hctl : c.toNat < 32
                · rw [escapeCharBytes, if_neg h34, if_neg h92, if_neg h8, if_neg h9, if_neg h10,
                    if_neg h12, if_neg h13, if_pos hctl]
                  simp only [List.cons_append, List.nil_append]
                  simp [parseStringBody, parseStringEscape]
                  rw [parseStringUnicode]
                  rw [show hexVal 48 = some 0 from by decide]
                  rw [hexVal_hexDigitByte (c.toNat / 16) (by omega),
                    hexVal_hexDigitByte (c.toNat % 16) (by omega)]
                  dsimp only
                  rw [if_pos (by omega :
                    ((0 * 16 + 0) * 16 + c.toNat / 16) * 16 + c.toNat % 16 < 55296)]
                  have harg : ((0 * 16 + 0) * 16 + c.toNat / 16) * 16 + c.toNat % 16 = c.toNat :=
                    by omega
                  rw [harg, Char.ofNat_toNat]
                · rw [escapeCharBytes, if_neg h34, if_neg h92, if_neg h8, if_neg h9, if_neg h10,
                    if_neg h12, if_neg h13, if_neg hctl]
                  exact parseStringBody_utf8 c bs (by omega) h34 h92

theorem parseStringBody_render (cs : List Char) (bs : List Nat) :
    parseStringBody ((cs.map escapeCharBytes).flatten ++ 34 :: bs) = some (cs, bs) := by
  induction cs with
  | nil =>
    rw [List.map_nil, List.flatten_nil, List.nil_append, parseStringBody, if_pos rfl]
  | cons c rest ih =>
    rw [List.map_cons, List.flatten_cons, List.append_assoc, parseStringBody_escape, ih]
    rfl

/-! ## JSON value round trip -/

theorem json_ind {P : Json → Prop}
    (hnull : P .null) (hbool : ∀ b, P (.bool b)) (hnum : ∀ n, P (.num n))
    (hstr : ∀ s, P (.str s))
    (harr : ∀ es, (∀ e ∈ es, P e) → P (.arr es))
    (hobj : ∀ fs, (∀ kv ∈ fs, P kv.2) → P (.obj fs)) :
    ∀ j, P j := by
  have H : ∀ n j, sizeOf j ≤ n → P j := by
    intro n
    induction n with
    | zero =>
      intro j hj
      cases j <;> simp at hj
    | succ n ih =>
      intro j hj
      cases j with
      | null => exact hnull
      | bool b => exact hbool b
      | num m => exact hnum m
      | str s => exact hstr s
      | arr es =>
        refine harr es (fun e he => ih e ?_)
        have h1 := List.sizeOf_lt_of_mem he
        simp at hj
        omega
      | obj fs =>
        refine hobj fs (fun kv hkv => ih kv.2 ?_)
        have h1 := List.sizeOf_lt_of_mem hkv
        obtain ⟨k, v⟩ := kv
        simp at h1 hj ⊢
        omega
  exact fun j => H (sizeOf j) j le_rfl

theorem renderJson_head (j : Json) :
    ∃ b l, renderJson j = b :: l ∧ b ≠ 93 ∧ b ≠ 125 := by
  cases j with
  | null => exact ⟨110, _, rfl, by omega, by omega⟩
  | bool b =>
    cases b with
    | false => exact ⟨102, _, rfl, by omega, by omega⟩
    | true => exact ⟨116, _, rfl, by omega, by omega⟩
  | num n =>
    by_cases hn : n < 0
    · exact ⟨45, _, by rw [renderJson, renderIntBytes, if_pos hn], by omega, by omega⟩
    · cases hd : natDigits n.toNat with
      | nil => exact absurd hd (natDigitsAux_ne_nil _ _)
      | cons b l =>
        have hd2 : natDigitsAux n.toNat n.toNat = b :: l := hd
        have hb : 48 ≤ b ∧ b ≤ 57 :=
          natDigitsAux_digits _ _ b (by rw [hd2]; exact List.Mem.head _)
        exact ⟨b, l, by rw [renderJson, renderIntBytes, if_neg hn, hd], by omega, by omega⟩
  | str s => exact ⟨34, _, rfl, by omega, by omega⟩
  | arr es => exact ⟨91, _, rfl, by omega, by omega⟩
  | obj fs => exact ⟨123, _, rfl, by omega, by omega⟩


theorem parseValue_at_34 (f depth : Nat) (rest : List Nat) :
    parseValue (f + 1) depth (34 :: rest) =
      (parseStringBody rest).map (fun p => (Json.str (String.mk p.1), p.2)) := by
  rw [parseValue]
  rw [if_neg (by decide : ¬ (34 : Nat) = 110), if_neg (by decide : ¬ (34 : Nat) = 116),
    if_neg (by decide : ¬ (34 : Nat) = 102), if_pos rfl]

theorem parseValue_at_45 (f depth : Nat) (rest : List Nat) :
    parseValue (f + 1) depth (45 :: rest) =
      (parseNumBytes rest).map (fun p => (Json.num (-(p.1 : Int)), p.2)) := by
  rw [parseValue]
  rw [if_neg (by decide : ¬ (45 : Nat) = 110), if_neg (by decide : ¬ (45 : Nat) = 116),
    if_neg (by decide : ¬ (45 : Nat) = 102), if_neg (by decide : ¬ (45 : Nat) = 34),
    if_neg (by decide : ¬ (45 : Nat) = 91), if_neg (by decide : ¬ (45 : Nat) = 123), if_pos rfl]

theorem parseValue_at_digit (f depth b : Nat) (rest : List Nat) (h : isDigitByte b = true) :
    parseValue (f + 1) depth (b :: rest) =
      (parseNumBytes (b :: rest)).map (fun p => (Json.num ((p.1 : Nat) : Int), p.2)) := by
  have hb : 48 ≤ b ∧ b ≤ 57 := by simpa [isDigitByte] using h
  rw [parseValue]
  rw [if_neg (by omega : ¬ b = 110), if_neg (by omega : ¬ b = 116),
    if_neg (by omega : ¬ b = 102), if_neg (by omega : ¬ b = 34),
    if_neg (by omega : ¬ b = 91), if_neg (by omega : ¬ b = 123),
    if_neg (by omega : ¬ b = 45), if_pos h]

theorem parseValue_at_91 (f depth r0 : Nat) (rr rest2 : List Nat) (es : List Json)
    (hdep : ¬ depth - 1 = 0) (h93 : r0 ≠ 93)
    (hpe : parseElems f (depth - 1) (r0 :: rr) = some (es, 93 :: rest2)) :
    parseValue (f + 1) depth (91 :: r0 :: rr) = some (Json.arr es, rest2) := by
  rw [parseValue]
  rw [if_neg (by decide : ¬ (91 : Nat) = 110), if_neg (by decide : ¬ (91 : Nat) = 116),
    if_neg (by decide : ¬ (91 : Nat) = 102), if_neg (by decide : ¬ (91 : Nat) = 34), if_pos rfl]
  rw [if_neg hdep]
  rw [parseArrTail, if_neg h93, hpe, arrOfElems]

theorem parseValue_at_123 (f depth r0 : Nat) (rr rest2 : List Nat) (fs : List (String × Json))
    (hdep : ¬ depth - 1 = 0) (h125 : r0 ≠ 125)
    (hpm : parseMembers f (depth - 1) (r0 :: rr) = some (fs, 125 :: rest2)) :
    parseValue (f + 1) depth (123 :: r0 :: rr) = some (Json.obj fs, rest2) := by
  rw [parseValue]
  rw [if_neg (by decide : ¬ (123 : Nat) = 110), if_neg (by decide : ¬ (123 : Nat) = 116),
    if_neg (by decide : ¬ (123 : Nat) = 102), if_neg (by decide : ¬ (123 : Nat) = 34),
    if_neg (by decide : ¬ (123 : Nat) = 91), if_pos rfl]
  rw [if_neg hdep]
  rw [parseObjTail, if_neg h125, hpm, objOfMembers]

theorem elemsDepth_mem_le : ∀ (es : List Json), ∀ e ∈ es, jsonDepth e ≤ elemsDepth es := by
  intro es
  induction es with
  | nil => intro e he; simp at he
  | cons x xs ih =>
    intro e he
    have hED : elemsDepth (x :: xs) = max (jsonDepth x) (elemsDepth xs) := rfl
    rcases List.mem_cons.mp he with h | h
    · subst h
      rw [hED]
      exact le_max_left _ _
    · rw [hED]
      exact le_trans (ih e h) (le_max_right _ _)

theorem membersDepth_mem_le :
    ∀ (fs : List (String × Json)), ∀ kv ∈ fs, jsonDepth kv.2 ≤ membersDepth fs := by
  intro fs
  induction fs with
  | nil => intro kv hkv; simp at hkv
  | cons x xs ih =>
    intro kv hkv
    have hMD : membersDepth (x :: xs) = max (jsonDepth x.2) (membersDepth xs) := rfl
    rcases List.mem_cons.mp hkv with h | h
    · subst h
      rw [hMD]
      exact le_max_left _ _
    · rw [hMD]
      exact le_trans (ih kv h) (le_max_right _ _)

theorem parseElems_render :
    ∀ (es : List Json),
      (∀ e ∈ es, ∀ fuel depth rest, jsonFuel e ≤ fuel → jsonDepth e < depth →
        headDigit rest = false →
        parseValue fuel depth (renderJson e ++ rest) = some (e, rest)) →
      ∀ fuel depth d rest, es ≠ [] → elemsFuel es ≤ fuel → (∀ e ∈ es, jsonDepth e < depth) →
        d ≠ 44 → isDigitByte d = false →
        parseElems fuel depth (renderElems es ++ d :: rest) = some (es, d :: rest) := by
  intro es
  induction es with
  | nil => intro _ fuel depth d rest hne _ _ _ _; exact absurd rfl hne
  | cons e es' ihl =>
    intro ih fuel depth d rest _ hf hdp hd44 hddig
    have hfe : 1 + jsonFuel e + elemsFuel es' ≤ fuel := hf
    obtain ⟨f, rfl⟩ : ∃ f, fuel = f + 1 := ⟨fuel - 1, by omega⟩
    cases es' with
    | nil =>
      have hEF : elemsFuel ([] : List Json) = 1 := rfl
      rw [show renderElems [e] = renderJson e from rfl]
      rw [parseElems]
      rw [ih e (List.Mem.head _) f depth (d :: rest) (by omega) (hdp e (List.Mem.head _))
        (by simpa [headDigit] using hddig)]
      dsimp only
      split
      · rename_i r2 heq
        injection heq with h1 h2
        exact absurd h1 hd44
      · rfl
    | cons e2 es'' =>
      rw [show renderElems (e :: e2 :: es'') = renderJson e ++ 44 :: renderElems (e2 :: es'')
        from rfl]
      simp only [List.append_assoc, List.cons_append]
      rw [parseElems]
      rw [ih e (List.Mem.head _) f depth (44 :: (renderElems (e2 :: es'') ++ d :: rest))
        (by omega) (hdp e (List.Mem.head _)) (by rfl)]
      dsimp only
      rw [ihl (fun e' he' => ih e' (List.mem_cons_of_mem e he')) f depth d rest
        (by simp) (by omega) (fun e' he' => hdp e' (List.mem_cons_of_mem e he')) hd44 hddig]

theorem parseMembers_render :
    ∀ (fs : List (String × Json)),
      (∀ kv ∈ fs, ∀ fuel depth rest, jsonFuel kv.2 ≤ fuel → jsonDepth kv.2 < depth →
        headDigit rest = false →
        parseValue fuel depth (renderJson kv.2 ++ rest) = some (kv.2, rest)) →
      ∀ fuel depth d rest, fs ≠ [] → membersFuel fs ≤ fuel →
        (∀ kv ∈ fs, jsonDepth kv.2 < depth) → d ≠ 44 → isDigitByte d = false →
        parseMembers fuel depth (renderMembers fs ++ d :: rest) = some (fs, d :: rest) := by
  intro fs
  induction fs with
  | nil => intro _ fuel depth d rest hne _ _ _ _; exact absurd rfl hne
  | cons kv fs' ihl =>
    intro ih fuel depth d rest _ hf hdp hd44 hddig
    obtain ⟨k, v⟩ := kv
    have hfe : 1 + jsonFuel v + membersFuel fs' ≤ fuel := hf
    obtain ⟨f, rfl⟩ : ∃ f, fuel = f + 1 := ⟨fuel - 1, by omega⟩
    cases fs' with
    | nil =>
      rw [show renderMembers [(k, v)] = renderStringBytes k ++ 58 :: renderJson v from rfl]
      rw [show renderStringBytes k = 34 :: ((k.data.map escapeCharBytes).flatten ++ [34])
        from rfl]
      simp only [List.append_assoc, List.cons_append, List.singleton_append, List.nil_append]
      rw [parseMembers]
      rw [parseStringBody_render]
      dsimp only
      rw [ih (k, v) (List.Mem.head _) f depth (d :: rest) (by dsimp only; omega)
        (hdp (k, v) (List.Mem.head _)) (by simpa [headDigit] using hddig)]
      dsimp only
      split
      · rename_i r2 heq
        injection heq with h1 h2
        exact absurd h1 hd44
      · rfl
    | cons kv2 fs'' =>
      rw [show renderMembers ((k, v) :: kv2 :: fs'') =
        renderStringBytes k ++ 58 :: renderJson v ++ 44 :: renderMembers (kv2 :: fs'')
        from rfl]
      rw [show renderStringBytes k = 34 :: ((k.data.map escapeCharBytes).flatten ++ [34])
        from rfl]
      simp only [List.append_assoc, List.cons_append, List.singleton_append, List.nil_append]
      rw [parseMembers]
      rw [parseStringBody_render]
      dsimp only
      rw [ih (k, v) (List.Mem.head _) f depth (44 :: (renderMembers (kv2 :: fs'') ++ d :: rest))
        (by dsimp only; omega) (hdp (k, v) (List.Mem.head _)) (by rfl)]
      dsimp only
      rw [ihl (fun kv' hkv' => ih kv' (List.mem_cons_of_mem _ hkv')) f depth d rest
        (by simp) (by omega) (fun kv' hkv' => hdp kv' (List.mem_cons_of_mem _ hkv'))
        hd44 hddig]

theorem parseValue_render :
    ∀ (j : Json) (fuel depth : Nat) (rest : List Nat), jsonFuel j ≤ fuel →
      jsonDepth j < depth → headDigit rest = false →
      parseValue fuel depth (renderJson j ++ rest) = some (j, rest) := by
  intro j
  induction j using json_ind with
  | hnull =>
    intro fuel depth rest hf hd hr
    have h1 : 1 ≤ fuel := hf
    obtain ⟨f, rfl⟩ : ∃ f, fuel = f + 1 := ⟨fuel - 1, by omega⟩
    rw [show renderJson Json.null ++ rest = 110 :: 117 :: 108 :: 108 :: rest from rfl]
    rw [parseValue, if_pos rfl, parseNullTail]
  | hbool b =>
    intro fuel depth rest hf hd hr
    have h1 : 1 ≤ fuel := hf
    obtain ⟨f, rfl⟩ : ∃ f, fuel = f + 1 := ⟨fuel - 1, by omega⟩
    cases b with
    | false =>
      rw [show renderJson (Json.bool false) ++ rest = 102 :: 97 :: 108 :: 115 :: 101 :: rest
        from rfl]
      rw [parseValue, if_neg (by decide : ¬ (102 : Nat) = 110),
        if_neg (by decide : ¬ (102 : Nat) = 116), if_pos rfl, parseFalseTail]
    | true =>
      rw [show renderJson (Json.bool true) ++ rest = 116 :: 114 :: 117 :: 101 :: rest from rfl]
      rw [parseValue, if_neg (by decide : ¬ (116 : Nat) = 110), if_pos rfl, parseTrueTail]
  | hnum n =>
    intro fuel depth rest hf hd hr
    have h1 : 1 ≤ fuel := hf
    obtain ⟨f, rfl⟩ : ∃ f, fuel = f + 1 := ⟨fuel - 1, by omega⟩
    by_cases hn : n < 0
    · rw [show renderJson (Json.num n) = 45 :: natDigits n.natAbs
        from by rw [renderJson, renderIntBytes, if_pos hn]]
      rw [List.cons_append, parseValue_at_45, parseNumBytes_natDigits n.natAbs rest hr]
      simp only [Option.map_some']
      have harg : -((n.natAbs : Nat) : Int) = n := by omega
      rw [harg]
    · cases hnd : natDigits n.toNat with
      | nil => exact absurd hnd (natDigitsAux_ne_nil _ _)
      | cons b l =>
        have hd2 : natDigitsAux n.toNat n.toNat = b :: l := hnd
        have hb : 48 ≤ b ∧ b ≤ 57 :=
          natDigitsAux_digits _ _ b (by rw [hd2]; exact List.Mem.head _)
        have hdig : isDigitByte b = true := by simp [isDigitByte]; omega
        rw [show renderJson (Json.num n) = natDigits n.toNat
          from by rw [renderJson, renderIntBytes, if_neg hn]]
        rw [hnd, List.cons_append, parseValue_at_digit f depth b _ hdig]
        have hpn := parseNumBytes_natDigits n.toNat rest hr
        rw [hnd] at hpn
        simp only [List.cons_append] at hpn
        rw [hpn]
        simp only [Option.map_some']
        have harg : ((n.toNat : Nat) : Int) = n := by omega
        rw [harg]
  | hstr s =>
    intro fuel depth rest hf hd hr
    have h1 : 1 ≤ fuel := hf
    obtain ⟨f, rfl⟩ : ∃ f, fuel = f + 1 := ⟨fuel - 1, by omega⟩
    have hbytes : renderJson (Json.str s) ++ rest =
        34 :: ((s.data.map escapeCharBytes).flatten ++ (34 :: rest)) := by
      rw [show renderJson (Json.str s) =
        34 :: ((s.data.map escapeCharBytes).flatten ++ [34]) from rfl]
      simp
    rw [hbytes, parseValue_at_34, parseStringBody_render]
    simp only [Option.map_some']
  | harr es ih =>
    intro fuel depth rest hf hd hr
    cases es with
    | nil =>
      have h1 : 2 ≤ fuel := hf
      have hd1 : 1 < depth := hd
      obtain ⟨f, rfl⟩ : ∃ f, fuel = f + 1 := ⟨fuel - 1, by omega⟩
      rw [show renderJson (Json.arr []) ++ rest = 91 :: 93 :: rest from rfl]
      rw [parseValue, if_neg (by decide : ¬ (91 : Nat) = 110),
        if_neg (by decide : ¬ (91 : Nat) = 116), if_neg (by decide : ¬ (91 : Nat) = 102),
        if_neg (by decide : ¬ (91 : Nat) = 34), if_pos rfl]
      rw [if_neg (by omega : ¬ depth - 1 = 0)]
      rw [parseArrTail, if_pos rfl]
    | cons e es' =>
      have h1 : 1 + elemsFuel (e :: es') ≤ fuel := hf
      have hd1 : 1 + elemsDepth (e :: es') < depth := hd
      obtain ⟨f, rfl⟩ : ∃ f, fuel = f + 1 := ⟨fuel - 1, by omega⟩
      obtain ⟨b0, l0, hbl, hb93, _⟩ := renderJson_head e
      have htail : ∃ tail, renderElems (e :: es') = b0 :: tail := by
        cases es' with
        | nil => exact ⟨l0, by rw [show renderElems [e] = renderJson e from rfl, hbl]⟩
        | cons e2 es'' =>
          refine ⟨l0 ++ 44 :: renderElems (e2 :: es''), ?_⟩
          rw [show renderElems (e :: e2 :: es'') =
            renderJson e ++ 44 :: renderElems (e2 :: es'') from rfl, hbl]
          rfl
      obtain ⟨tail, htl⟩ := htail
      have hbytes : renderJson (Json.arr (e :: es')) ++ rest =
          91 :: b0 :: (tail ++ 93 :: rest) := by
        rw [show renderJson (Json.arr (e :: es')) =
          91 :: renderElems (e :: es') ++ [93] from rfl, htl]
        simp
      rw [hbytes]
      refine parseValue_at_91 f depth b0 (tail ++ 93 :: rest) rest (e :: es')
        (by omega) hb93 ?_
      rw [show b0 :: (tail ++ 93 :: rest) = renderElems (e :: es') ++ 93 :: rest
        from by rw [htl]; rfl]
      exact parseElems_render (e :: es') ih f (depth - 1) 93 rest (by simp) (by omega)
        (fun e' he' => lt_of_le_of_lt (elemsDepth_mem_le _ e' he') (by omega))
        (by omega) (by rfl)
  | hobj fs ih =>
    intro fuel depth rest hf hd hr
    cases fs with
    | nil =>
      have h1 : 2 ≤ fuel := hf
      have hd1 : 1 < depth := hd
      obtain ⟨f, rfl⟩ : ∃ f, fuel = f + 1 := ⟨fuel - 1, by omega⟩
      rw [show renderJson (Json.obj []) ++ rest = 123 :: 125 :: rest from rfl]
      rw [parseValue, if_neg (by decide : ¬ (123 : Nat) = 110),
        if_neg (by decide : ¬ (123 : Nat) = 116), if_neg (by decide : ¬ (123 : Nat) = 102),
        if_neg (by decide : ¬ (123 : Nat) = 34), if_neg (by decide : ¬ (123 : Nat) = 91),
        if_pos rfl]
      rw [if_neg (by omega : ¬ depth - 1 = 0)]
      rw [parseObjTail, if_pos rfl]
    | cons kv fs' =>
      have h1 : 1 + membersFuel (kv :: fs') ≤ fuel := hf
      have hd1 : 1 + membersDepth (kv :: fs') < depth := hd
      obtain ⟨f, rfl⟩ : ∃ f, fuel = f + 1 := ⟨fuel - 1, by omega⟩
      have htail : ∃ tail, renderMembers (kv :: fs') = 34 :: tail := by
        cases fs' with
        | nil => exact ⟨_, rfl⟩
        | cons kv2 fs'' => exact ⟨_, rfl⟩
      obtain ⟨tail, htl⟩ := htail
      have hbytes : renderJson (Json.obj (kv :: fs')) ++ rest =
          123 :: 34 :: (tail ++ 125 :: rest) := by
        rw [show renderJson (Json.obj (kv :: fs')) =
          123 :: renderMembers (kv :: fs') ++ [125] from rfl, htl]
        simp
      rw [hbytes]
      refine parseValue_at_123 f depth 34 (tail ++ 125 :: rest) rest (kv :: fs')
        (by omega) (by decide) ?_
      rw [show (34 : Nat) :: (tail ++ 125 :: rest) = renderMembers (kv :: fs') ++ 125 :: rest
        from by rw [htl]; rfl]
      exact parseMembers_render (kv :: fs') ih f (depth - 1) 125 rest (by simp) (by omega)
        (fun kv' hkv' => lt_of_le_of_lt (membersDepth_mem_le _ kv' hkv') (by omega))
        (by omega) (by rfl)

/-! ## Envelope round trip -/

theorem jsonLookupList_cons (kv : String × Json) (rest : List (String × Json)) (k : String) :
    jsonLookupList (kv :: rest) k = if kv.1 = k then some kv.2 else jsonLookupList rest k := rfl

theorem jsonLookupList_optPart_skip (q k : String) (o : Option Json)
    (rest : List (String × Json)) (h : q ≠ k) :
    jsonLookupList (optPart q o ++ rest) k = jsonLookupList rest k := by
  cases o <;> simp [optPart, jsonLookupList, h]

theorem jsonLookupList_optPart_ne (q k : String) (o : Option Json) (h : q ≠ k) :
    jsonLookupList (optPart q o) k = none := by
  cases o <;> simp [optPart, jsonLookupList, h]

theorem jsonLookupList_optPart_self (k : String) (o : Option Json) :
    jsonLookupList (optPart k o) k = o := by
  cases o <;> simp [optPart, jsonLookupList]

theorem jsonLookupList_optPart_head (k : String) (o : Option Json)
    (rest : List (String × Json)) (hrest : jsonLookupList rest k = none) :
    jsonLookupList (optPart k o ++ rest) k = o := by
  cases o with
  | none => simpa [optPart] using hrest
  | some j => simp [optPart, jsonLookupList]

theorem lookup_jsonrpc (j0 : Json) (p1 p2 p3 p4 p5 : List (String × Json)) :
    jsonLookupList ((("jsonrpc" : String), j0) :: (p1 ++ (p2 ++ (p3 ++ (p4 ++ p5)))))
      ("jsonrpc") = some j0 := by
  rw [jsonLookupList_cons, if_pos rfl]

theorem lookup_id_field (j0 : Json) (oid om op orr oe : Option Json) :
    jsonLookupList ((("jsonrpc" : String), j0) ::
      (optPart ("id") oid ++ (optPart ("method") om ++ (optPart ("params") op ++
        (optPart ("result") orr ++ optPart ("error") oe))))) ("id") = oid := by
  rw [jsonLookupList_cons, if_neg (by dsimp only; decide)]
  refine jsonLookupList_optPart_head _ _ _ ?_
  rw [jsonLookupList_optPart_skip _ _ _ _ (by decide),
    jsonLookupList_optPart_skip _ _ _ _ (by decide),
    jsonLookupList_optPart_skip _ _ _ _ (by decide)]
  exact jsonLookupList_optPart_ne _ _ _ (by decide)

theorem lookup_method_field (j0 : Json) (oid om op orr oe : Option Json) :
    jsonLookupList ((("jsonrpc" : String), j0) ::
      (optPart ("id") oid ++ (optPart ("method") om ++ (optPart ("params") op ++
        (optPart ("result") orr ++ optPart ("error") oe))))) ("method") = om := by
  rw [jsonLookupList_cons, if_neg (by dsimp only; decide)]
  rw [jsonLookupList_optPart_skip _ _ _ _ (by decide)]
  refine jsonLookupList_optPart_head _ _ _ ?_
  rw [jsonLookupList_optPart_skip _ _ _ _ (by decide),
    jsonLookupList_optPart_skip _ _ _ _ (by decide)]
  exact jsonLookupList_optPart_ne _ _ _ (by decide)

theorem lookup_params_field (j0 : Json) (oid om op orr oe : Option Json) :
    jsonLookupList ((("jsonrpc" : String), j0) ::
      (optPart ("id") oid ++ (optPart ("method") om ++ (optPart ("params") op ++
        (optPart ("result") orr ++ optPart ("error") oe))))) ("params") = op := by
  rw [jsonLookupList_cons, if_neg (by dsimp only; decide)]
  rw [jsonLookupList_optPart_skip _ _ _ _ (by decide),
    jsonLookupList_optPart_skip _ _ _ _ (by decide)]
  refine jsonLookupList_optPart_head _ _ _ ?_
  rw [jsonLookupList_optPart_skip _ _ _ _ (by decide)]
  exact jsonLookupList_optPart_ne _ _ _ (by decide)

theorem lookup_result_field (j0 : Json) (oid om op orr oe : Option Json) :
    jsonLookupList ((("jsonrpc" : String), j0) ::
      (optPart ("id") oid ++ (optPart ("method") om ++ (optPart ("params") op ++
        (optPart ("result") orr ++ optPart ("error") oe))))) ("result") = orr := by
  rw [jsonLookupList_cons, if_neg (by dsimp only; decide)]
  rw [jsonLookupList_optPart_skip _ _ _ _ (by decide),
    jsonLookupList_optPart_skip _ _ _ _ (by decide),
    jsonLookupList_optPart_skip _ _ _ _ (by decide)]
  refine jsonLookupList_optPart_head _ _ _ ?_
  exact jsonLookupList_optPart_ne _ _ _ (by decide)

theorem lookup_error_field (j0 : Json) (oid om op orr oe : Option Json) :
    jsonLookupList ((("jsonrpc" : String), j0) ::
      (optPart ("id") oid ++ (optPart ("method") om ++ (optPart ("params") op ++
        (optPart ("result") orr ++ optPart ("error") oe))))) ("error") = oe := by
  rw [jsonLookupList_cons, if_neg (by dsimp only; decide)]
  rw [jsonLookupList_optPart_skip _ _ _ _ (by decide),
    jsonLookupList_optPart_skip _ _ _ _ (by decide),
    jsonLookupList_optPart_skip _ _ _ _ (by decide),
    jsonLookupList_optPart_skip _ _ _ _ (by decide)]
  exact jsonLookupList_optPart_self _ _

theorem optField_of_id (fs : List (String × Json)) (k : String) (o : Option RpcId)
    (h : jsonLookupList fs k = Option.map idToJson o) :
    optField fs k idFromJson = some o := by
  unfold optField
  rw [h]
  cases o with
  | none => rfl
  | some i => cases i <;> rfl

theorem optField_of_str (fs : List (String × Json)) (k : String) (o : Option String)
    (h : jsonLookupList fs k = Option.map Json.str o) :
    optField fs k asStr = some o := by
  unfold optField
  rw [h]
  cases o <;> rfl

theorem optField_of_json (fs : List (String × Json)) (k : String) (o : Option Json)
    (h : jsonLookupList fs k = o) :
    optField fs k some = some (jnormOpt o) := by
  unfold optField
  rw [h]
  cases o with
  | none => rfl
  | some j => cases j <;> rfl

theorem optField_of_error (fs : List (String × Json)) (k : String) (o : Option RpcError)
    (h : jsonLookupList fs k = Option.map errorToJson o) :
    optField fs k errorFromJson =
      some (Option.map (fun e => { e with data := jnormOpt e.data }) o) := by
  unfold optField
  rw [h]
  cases o with
  | none => rfl
  | some e =>
    obtain ⟨code, message, data⟩ := e
    cases data with
    | none => rfl
    | some d => cases d <;> rfl

theorem messageFromJson_toJson (m : RpcMessage) :
    messageFromJson (messageToJson m) = some (msgNormalize m) := by
  obtain ⟨jsonrpc, id, method, params, result, error⟩ := m
  have hF : messageToJson ⟨jsonrpc, id, method, params, result, error⟩ =
      Json.obj ((("jsonrpc" : String), Json.str jsonrpc) ::
        (optPart ("id") (id.map idToJson) ++
          (optPart ("method") (method.map Json.str) ++
            (optPart ("params") params ++
              (optPart ("result") result ++ optPart ("error") (error.map errorToJson)))))) := by
    rw [messageToJson]
    simp [List.append_assoc]
  rw [hF, messageFromJson]
  rw [lookup_jsonrpc]
  dsimp only
  rw [optField_of_id _ _ id (lookup_id_field _ _ _ _ _ _)]
  dsimp only
  rw [optField_of_str _ _ method (lookup_method_field _ _ _ _ _ _)]
  dsimp only
  rw [optField_of_json _ _ params (lookup_params_field _ _ _ _ _ _)]
  dsimp only
  rw [optField_of_json _ _ result (lookup_result_field _ _ _ _ _ _)]
  dsimp only
  rw [optField_of_error _ _ error (lookup_error_field _ _ _ _ _ _)]
  rfl

/-! ## Framing round trip -/

theorem splitLineGo_no10 :
    ∀ (xs rest : List Nat), (∀ b ∈ xs, b ≠ 10) →
      splitLineGo (xs ++ 10 :: rest) = (xs ++ [10], rest) := by
  intro xs
  induction xs with
  | nil => intro rest _; simp [splitLineGo]
  | cons b xs ih =>
    intro rest h
    have hb : b ≠ 10 := h b (List.Mem.head _)
    simp only [List.cons_append, splitLineGo, if_neg hb, List.append_eq]
    rw [ih rest (fun b' hb' => h b' (List.mem_cons_of_mem _ hb'))]

theorem splitLine_of_ne_nil (bs : List Nat) (h : bs ≠ []) :
    splitLine bs = some (splitLineGo bs) := by
  cases bs with
  | nil => exact absurd rfl h
  | cons b rest => rfl

theorem dropTrailingWs_all_ws :
    ∀ (tail : List Nat), (∀ b ∈ tail, isWsByte b = true) → dropTrailingWs tail = [] := by
  intro tail
  induction tail with
  | nil => intro _; rfl
  | cons b rest ih =>
    intro h
    simp only [dropTrailingWs]
    rw [ih (fun b' hb' => h b' (List.mem_cons_of_mem _ hb'))]
    simp [h b (List.Mem.head _)]

theorem dropTrailingWs_ws_tail :
    ∀ (xs tail : List Nat), (∀ b ∈ tail, isWsByte b = true) →
      dropTrailingWs (xs ++ tail) = dropTrailingWs xs := by
  intro xs tail h
  induction xs with
  | nil => simpa using dropTrailingWs_all_ws tail h
  | cons x xs ih =>
    simp only [List.cons_append, dropTrailingWs, List.append_eq]
    rw [ih]

theorem dropTrailingWs_all_nonws :
    ∀ (ys : List Nat), (∀ b ∈ ys, isWsByte b = false) → dropTrailingWs ys = ys := by
  intro ys
  induction ys with
  | nil => intro _; rfl
  | cons b rest ih =>
    intro h
    simp only [dropTrailingWs]
    rw [ih (fun x hx => h x (List.mem_cons_of_mem _ hx))]
    cases rest with
    | nil => simp [h b (List.Mem.head _)]
    | cons c r2 => simp

theorem dropTrailingWs_nonws_suffix (xs ys : List Nat)
    (hys : ∀ b ∈ ys, isWsByte b = false) (hne : ys ≠ []) :
    dropTrailingWs (xs ++ ys) = xs ++ ys := by
  induction xs with
  | nil => simpa using dropTrailingWs_all_nonws ys hys
  | cons x xs ih =>
    simp only [List.cons_append, dropTrailingWs, List.append_eq]
    rw [ih]
    have hne2 : xs ++ ys ≠ [] := by
      cases ys with
      | nil => exact absurd rfl hne
      | cons b r => simp
    simp [List.isEmpty_iff, hne2]

theorem dropExact_append : ∀ (p rest : List Nat), dropExact p (p ++ rest) = some rest := by
  intro p
  induction p with
  | nil => intro rest; rfl
  | cons b ps ih =>
    intro rest
    simp only [List.cons_append, dropExact, if_pos rfl]
    exact ih rest

theorem parseUsizeBytes_natDigits (n : Nat) : parseUsizeBytes (natDigits n) = some n := by
  unfold parseUsizeBytes
  cases hnd : natDigits n with
  | nil => exact absurd hnd (natDigitsAux_ne_nil _ _)
  | cons b l =>
    have hd2 : natDigitsAux n n = b :: l := hnd
    have hb : 48 ≤ b ∧ b ≤ 57 :=
      natDigitsAux_digits _ _ b (by rw [hd2]; exact List.Mem.head _)
    have hdig : isDigitByte b = true := by simp [isDigitByte]; omega
    have hpd : parseDigitsLoop 0 (b :: l) = (n, []) := by
      have h0 := parseDigitsLoop_natDigitsAux n n 0 [] le_rfl
      rw [List.append_nil] at h0
      rw [hd2] at h0
      simpa [parseDigitsLoop] using h0
    dsimp only
    rw [hdig, if_pos rfl, hpd]

theorem splitLine_header (n : Nat) (body : List Nat) :
    splitLine (headerBytes n ++ body) =
      some (asciiBytes ("Content-Length: ") ++ natDigits n ++ [13, 10], 13 :: 10 :: body) := by
  have h1 : headerBytes n ++ body =
      (asciiBytes ("Content-Length: ") ++ natDigits n ++ [13]) ++ 10 :: (13 :: 10 :: body) := by
    rw [headerBytes]
    simp
  rw [h1]
  have h10 : ∀ b ∈ asciiBytes ("Content-Length: ") ++ natDigits n ++ [13], b ≠ 10 := by
    intro b hb
    rcases List.mem_append.mp hb with hb | hb
    · rcases List.mem_append.mp hb with hb | hb
      · exact (by decide : ∀ b ∈ asciiBytes ("Content-Length: "), b ≠ 10) b hb
      · have := natDigitsAux_digits _ _ b hb
        omega
    · simp at hb
      omega
  rw [splitLine_of_ne_nil _ (by simp)]
  rw [splitLineGo_no10 _ _ h10]
  simp

theorem trimBytes_header (n : Nat) :
    trimBytes (asciiBytes ("Content-Length: ") ++ natDigits n ++ [13, 10]) =
      asciiBytes ("Content-Length: ") ++ natDigits n := by
  unfold trimBytes
  have h1 : (asciiBytes ("Content-Length: ") ++ natDigits n ++ [13, 10]).dropWhile isWsByte =
      asciiBytes ("Content-Length: ") ++ natDigits n ++ [13, 10] := by
    rw [show asciiBytes ("Content-Length: ") = 67 :: asciiBytes ("ontent-Length: ")
      from by decide]
    simp [List.dropWhile_cons, isWsByte]
  rw [h1, dropTrailingWs_ws_tail (asciiBytes ("Content-Length: ") ++ natDigits n) [13, 10]
    (by decide)]
  exact dropTrailingWs_nonws_suffix (asciiBytes ("Content-Length: ")) (natDigits n)
    (fun b hb => by have := natDigitsAux_digits _ _ b hb; simp [isWsByte]; omega)
    (natDigitsAux_ne_nil _ _)

theorem readHeadersAux_header (f n : Nat) (body : List Nat) (acc : Option Nat) :
    readHeadersAux (f + 2) (headerBytes n ++ body) acc = .ok (n, body) := by
  rw [readHeadersAux, splitLine_header]
  dsimp only
  rw [if_neg (by
    rw [show asciiBytes ("Content-Length: ") = 67 :: asciiBytes ("ontent-Length: ")
      from by decide]
    simp)]
  rw [trimBytes_header, dropExact_append]
  dsimp only
  rw [parseUsizeBytes_natDigits]
  dsimp only
  rw [readHeadersAux, splitLine_of_ne_nil _ (by simp)]
  rw [show splitLineGo (13 :: 10 :: body) = ([13, 10], body) from by simp [splitLineGo]]
  dsimp only
  rw [if_pos rfl]

theorem renderJson_length_pos (j : Json) : 1 ≤ (renderJson j).length := by
  obtain ⟨b, l, hbl, _, _⟩ := renderJson_head j
  rw [hbl]
  simp

theorem elemsFuel_bound :
    ∀ (es : List Json), (∀ e ∈ es, jsonFuel e ≤ 2 * (renderJson e).length) →
      elemsFuel es ≤ 2 * (renderElems es).length + 2 := by
  intro es
  induction es with
  | nil => intro _; simp [elemsFuel, renderElems]
  | cons e es' ih =>
    intro h
    have he := h e (List.Mem.head _)
    have hEF : elemsFuel (e :: es') = 1 + jsonFuel e + elemsFuel es' := rfl
    cases es' with
    | nil =>
      have h0 : elemsFuel ([] : List Json) = 1 := rfl
      have hr : renderElems [e] = renderJson e := rfl
      rw [hEF, hr, h0]
      omega
    | cons e2 es'' =>
      have hih := ih (fun e' he' => h e' (List.mem_cons_of_mem _ he'))
      have hr : renderElems (e :: e2 :: es'') =
          renderJson e ++ 44 :: renderElems (e2 :: es'') := rfl
      rw [hEF, hr]
      simp only [List.length_append, List.length_cons]
      omega

theorem membersFuel_bound :
    ∀ (fs : List (String × Json)), (∀ kv ∈ fs, jsonFuel kv.2 ≤ 2 * (renderJson kv.2).length) →
      membersFuel fs ≤ 2 * (renderMembers fs).length + 2 := by
  intro fs
  induction fs with
  | nil => intro _; simp [membersFuel, renderMembers]
  | cons kv fs' ih =>
    intro h
    have he := h kv (List.Mem.head _)
    have hMF : membersFuel (kv :: fs') = 1 + jsonFuel kv.2 + membersFuel fs' := rfl
    cases fs' with
    | nil =>
      have h0 : membersFuel ([] : List (String × Json)) = 1 := rfl
      have hr : renderMembers [kv] = renderStringBytes kv.1 ++ 58 :: renderJson kv.2 := rfl
      rw [hMF, hr, h0]
      simp only [List.length_append, List.length_cons]
      omega
    | cons kv2 fs'' =>
      have hih := ih (fun kv' hkv' => h kv' (List.mem_cons_of_mem _ hkv'))
      have hr : renderMembers (kv :: kv2 :: fs'') =
          renderStringBytes kv.1 ++ 58 :: renderJson kv.2 ++ 44 :: renderMembers (kv2 :: fs'') :=
        rfl
      rw [hMF, hr]
      simp only [List.length_append, List.length_cons]
      omega

theorem jsonFuel_bound (j : Json) : jsonFuel j ≤ 2 * (renderJson j).length := by
  induction j using json_ind with
  | hnull => decide
  | hbool b => cases b <;> decide
  | hnum n =>
    have h1 : jsonFuel (Json.num n) = 1 := rfl
    have h2 := renderJson_length_pos (Json.num n)
    omega
  | hstr s =>
    have h1 : jsonFuel (Json.str s) = 1 := rfl
    have h2 := renderJson_length_pos (Json.str s)
    omega
  | harr es ih =>
    have h1 : jsonFuel (Json.arr es) = 1 + elemsFuel es := rfl
    have h2 : renderJson (Json.arr es) = 91 :: renderElems es ++ [93] := rfl
    have h3 := elemsFuel_bound es ih
    rw [h1, h2]
    simp only [List.length_cons, List.length_append, List.length_singleton]
    omega
  | hobj fs ih =>
    have h1 : jsonFuel (Json.obj fs) = 1 + membersFuel fs := rfl
    have h2 : renderJson (Json.obj fs) = 123 :: renderMembers fs ++ [125] := rfl
    have h3 := membersFuel_bound fs ih
    rw [h1, h2]
    simp only [List.length_cons, List.length_append, List.length_singleton]
    omega

theorem readMessage_writeMessage (m : RpcMessage)
    (hdepth : jsonDepth (messageToJson m) < 128) :
    readMessageBytes (writeMessageBytes m) = .ok (msgNormalize m, []) := by
  unfold readMessageBytes writeMessageBytes
  have hlen : ∃ f, (headerBytes (renderJson (messageToJson m)).length ++
      renderJson (messageToJson m)).length + 1 = f + 2 := by
    refine ⟨(headerBytes (renderJson (messageToJson m)).length ++
      renderJson (messageToJson m)).length - 1, ?_⟩
    have : 1 ≤ (headerBytes (renderJson (messageToJson m)).length).length := by
      rw [headerBytes]
      simp only [List.length_append, List.length_cons, List.length_nil]
      omega
    simp only [List.length_append]
    omega
  obtain ⟨f, hf⟩ := hlen
  rw [hf, readHeadersAux_header]
  dsimp only
  rw [if_neg (by omega)]
  rw [List.take_length]
  have hparse : parseValue (2 * (renderJson (messageToJson m)).length + 2) 128
      (renderJson (messageToJson m)) = some (messageToJson m, []) := by
    have h0 := parseValue_render (messageToJson m)
      (2 * (renderJson (messageToJson m)).length + 2) 128 []
      (le_trans (jsonFuel_bound _) (by omega)) hdepth rfl
    simpa using h0
  rw [hparse]
  dsimp only
  rw [messageFromJson_toJson]
  dsimp only
  rw [List.drop_length]

/-- The nesting depth of `nestArr` is its index. -/
theorem jsonDepth_nestArr : ∀ n, jsonDepth (nestArr n) = n := by
  intro n
  induction n with
  | zero => rfl
  | succ k ih =>
    have h1 : jsonDepth (nestArr (k + 1)) = 1 + max (jsonDepth (nestArr k)) 0 := rfl
    rw [h1, ih]
    omega

/-- A document of nesting depth at least the remaining depth fails to
parse, whatever the fuel: the recursion-limit check fires on the path of
deepest nesting. -/
theorem parseValue_depth_limited :
    ∀ (n fuel depth : Nat) (rest : List Nat), 1 ≤ n → depth ≤ n →
      parseValue fuel depth (renderJson (nestArr n) ++ rest) = none := by
  intro n
  induction n with
  | zero => intro fuel depth rest h1 _; omega
  | succ k ihn =>
    intro fuel depth rest _ hdep
    cases fuel with
    | zero => rfl
    | succ f =>
      have hbytes : renderJson (nestArr (k + 1)) ++ rest =
          91 :: (renderJson (nestArr k) ++ 93 :: rest) := by
        rw [show renderJson (nestArr (k + 1)) = 91 :: renderElems [nestArr k] ++ [93] from rfl]
        rw [show renderElems [nestArr k] = renderJson (nestArr k) from rfl]
        simp
      rw [hbytes]
      rw [parseValue, if_neg (by decide : ¬ (91 : Nat) = 110),
        if_neg (by decide : ¬ (91 : Nat) = 116), if_neg (by decide : ¬ (91 : Nat) = 102),
        if_neg (by decide : ¬ (91 : Nat) = 34), if_pos rfl]
      by_cases hz : depth - 1 = 0
      · rw [if_pos hz]
      · rw [if_neg hz]
        have hk1 : 1 ≤ k := by omega
        obtain ⟨b0, l0, hbl, hb93, _⟩ := renderJson_head (nestArr k)
        rw [show renderJson (nestArr k) ++ 93 :: rest = b0 :: (l0 ++ 93 :: rest)
          from by rw [hbl]; rfl]
        rw [parseArrTail, if_neg hb93]
        cases f with
        | zero => rfl
        | succ f2 =>
          rw [parseElems]
          rw [show b0 :: (l0 ++ 93 :: rest) = renderJson (nestArr k) ++ 93 :: rest
            from by rw [hbl]; rfl]
          rw [ihn f2 (depth - 1) (93 :: rest) hk1 (by omega)]
          rfl

/-- At the reader's remaining depth of 128, the rendering of a 128-deep
document — exactly what the writer emits for it — fails to parse for
every fuel, matching serde_json's `RecursionLimitExceeded`. -/
theorem parseValue_recursion_limit (fuel : Nat) (rest : List Nat) :
    parseValue fuel 128 (renderJson (nestArr 128) ++ rest) = none :=
  parseValue_depth_limited 128 fuel 128 rest (by omega) (le_refl 128)

/-- One container shallower, the same reader accepts the document: the
modelled limit sits exactly at serde_json's boundary. -/
theorem parseValue_recursion_limit_boundary :
    parseValue (2 * (renderJson (nestArr 127)).length + 2) 128
      (renderJson (nestArr 127)) = some (nestArr 127, []) := by
  have h0 := parseValue_render (nestArr 127) (2 * (renderJson (nestArr 127)).length + 2) 128 []
    (le_trans (jsonFuel_bound _) (by omega)) (by rw [jsonDepth_nestArr]; omega) rfl
  simpa using h0

/-- C6: the claim as stated — read(write(M)) equals M whenever M is already
in missing-optional normal form (no change beyond absent options reading
back as absent) — fails on messages whose `params` (or `result`, or
`error.data`) is a present literal `null`: serde's `Option<Value>` reads the
serialized `null` back as `None`, so the round trip of `c6Msg` drops its
`params` value and the result differs from `c6Msg` although the claim's
normalization (about absent fields only) would keep it. -/
theorem c6_counterexample :
    readMessageBytes (writeMessageBytes c6Msg) = .ok ({ c6Msg with params := none }, []) ∧
      ({ c6Msg with params := none } : RpcMessage) ≠ c6Msg := by
  constructor
  · rw [readMessage_writeMessage c6Msg (by decide)]
    rfl
  · intro h
    exact Option.noConfusion (congrArg RpcMessage.params h)

/-- C6 (amended): for every RpcMessage whose serialized JSON nests fewer
than 128 containers deep (serde_json's default recursion limit, which
`read_message`'s `from_slice` enforces; every envelope the proxy itself
builds is a few levels deep), writing the Content-Length frame and
reading the produced bytes back yields exactly the null-collapsed normal
form of the message and an empty remainder: optional fields absent on
the wire read back as `none`, and a present literal `null` in `params`,
`result` or `error.data` also collapses to `none`; all other fields are
preserved exactly. -/
theorem c6_frame_round_trip_normalized (m : RpcMessage)
    (hdepth : jsonDepth (messageToJson m) < 128) :
    readMessageBytes (writeMessageBytes m) = .ok (msgNormalize m, []) :=
  readMessage_writeMessage m hdepth

/-- C6 witness: the round-trip theorem applied to the concrete `c6Msg`,
whose serialization is two levels deep. -/
theorem c6_frame_round_trip_normalized_witness :
    jsonDepth (messageToJson c6Msg) < 128 ∧
      readMessageBytes (writeMessageBytes c6Msg) = .ok (msgNormalize c6Msg, []) :=
  ⟨by decide, c6_frame_round_trip_normalized c6Msg (by decide)⟩
